import Mathlib

/-!
Verification development for the tron-signal repository.

Shallow embedding of the block ingestion and signal pipeline:
  * `judge` package (backend/judge/judge.go): the ON/OFF classifier.
  * `machine` package (src/unnamed/part_000, third document): the
    multi-instance state-machine engine (`Manager`, `OnBlock`, `Upsert`,
    `StopAll`, `ResetAll`).
  * `block` package (backend/block/ringbuffer.go): the dedup ring.
  * `app` package (src/unnamed/part_003 and part_004): the Core
    orchestrator (`OnBlock`, `SwitchJudgeRule`).

Go strings that are processed byte-wise (hashes, heights) are modelled as
`List Nat` (their byte values, each < 256); identifiers that are only
compared for equality stay `String`.  Go `int`/`int64` are modelled as
`Int` (the programs in scope never approach 64-bit overflow on counters;
`strconv.ParseInt` overflow is modelled explicitly).  Go maps are
modelled as functions `String → Option α`.
-/

/-! ## judge package: `Result` and the classifier -/

/-- `judge.Result`: block classification.  In Go this is a string type
whose only constructed values are `"ON"` and `"OFF"`. -/
inductive Result where
  | ON
  | OFF
  deriving DecidableEq, Repr

/-- `unicode.IsLetter(rune(b))` for a byte `b` (the only runes the judge
ever builds are bytes, hence codepoints `< 256`): ASCII letters plus the
Latin-1 letters U+00AA, U+00B5, U+00BA, U+00C0–U+00D6, U+00D8–U+00F6,
U+00F8–U+00FF. -/
def goIsLetter (c : Nat) : Bool :=
  decide ((65 ≤ c ∧ c ≤ 90) ∨ (97 ≤ c ∧ c ≤ 122) ∨ c = 170 ∨ c = 181 ∨ c = 186 ∨
    (192 ≤ c ∧ c ≤ 214) ∨ (216 ≤ c ∧ c ≤ 246) ∨ (248 ≤ c ∧ c ≤ 255))

/-- `unicode.IsDigit(rune(b))` for a byte `b`: only the ASCII digits
`'0'..'9'` are in category Nd below codepoint 256. -/
def goIsDigit (c : Nat) : Bool :=
  decide (48 ≤ c ∧ c ≤ 57)

/-- ASCII whitespace bytes trimmed by `strings.TrimSpace`
(`'\t' '\n' '\v' '\f' '\r' ' '`).  The two non-ASCII Unicode spaces
(U+0085, U+00A0) are multi-byte in UTF-8 and never occur in the inputs
considered here, so they are not modelled. -/
def asciiSpace (c : Nat) : Bool :=
  decide (c = 9 ∨ c = 10 ∨ c = 11 ∨ c = 12 ∨ c = 13 ∨ c = 32)

/-- `strings.TrimSpace` at byte level. -/
def trimSpace (l : List Nat) : List Nat :=
  ((l.dropWhile asciiSpace).reverse.dropWhile asciiSpace).reverse

/-- `judge.decideLucky` (judge.go lines 84–102): trim the hash, look at
the last two bytes; letter+digit or digit+letter gives ON, anything else
OFF. -/
def decideLucky (hash : List Nat) : Result :=
  let h := trimSpace hash
  if h.length < 2 then Result.OFF
  else
    let a := h.getD (h.length - 2) 0
    let b := h.getD (h.length - 1) 0
    if (goIsLetter a && goIsDigit b) || (goIsDigit a && goIsLetter b) then Result.ON
    else Result.OFF

/-- Last decimal digit byte of a string, scanning from the end
(the shared loop of `decideBig`/`decideOdd`). -/
def lastDigit (hash : List Nat) : Option Nat :=
  hash.reverse.find? goIsDigit

/-- `judge.decideBig` (judge.go lines 108–120): last digit `0..4` is ON,
`5..9` is OFF, no digit is OFF. -/
def decideBig (hash : List Nat) : Result :=
  match lastDigit hash with
  | some d => if d ≤ 52 then Result.ON else Result.OFF
  | none => Result.OFF

/-- `judge.decideOdd` (judge.go lines 126–137): last digit even is ON,
odd is OFF, no digit is OFF. -/
def decideOdd (hash : List Nat) : Result :=
  match lastDigit hash with
  | some d => if (d - 48) % 2 = 0 then Result.ON else Result.OFF
  | none => Result.OFF

/-- `judge.Judge.Decide` (judge.go lines 59–74): dispatch on the held
rule string; `lucky` falls through to the default, so every rule other
than `big` and `odd` classifies with `decideLucky`. -/
def judgeDecide (rule : String) (hash : List Nat) : Result :=
  if rule = "big" then decideBig hash
  else if rule = "odd" then decideOdd hash
  else decideLucky hash

/-- `judge.NewJudge` (judge.go lines 34–39): the rule stored by the
constructor; the empty rule is replaced by `lucky`. -/
def newJudgeRule (rule : String) : String :=
  if rule = "" then "lucky" else rule

/-- Modelled from the spec's words, for refinement comparison with
`decideLucky` (spec §4.E, LUCKY): inspect the last two characters of the
(lowercased) hash; ON iff exactly one of them is a hex letter `a–f` and
the other a decimal digit; both letters, both digits, or any character
outside `[0-9a-f]` give OFF. -/
def specLucky (hash : List Nat) : Result :=
  if hash.length < 2 then Result.OFF
  else
    let a := hash.getD (hash.length - 2) 0
    let b := hash.getD (hash.length - 1) 0
    let hexLetter := fun c => decide (97 ≤ c ∧ c ≤ 102)
    if (hexLetter a && goIsDigit b) || (goIsDigit a && hexLetter b) then Result.ON
    else Result.OFF

/-- A byte that is a lowercase hex character `[0-9a-f]`. -/
def isHexByte (c : Nat) : Bool :=
  goIsDigit c || decide (97 ≤ c ∧ c ≤ 102)

/-! ## machine package (src/unnamed/part_000): configs, runtimes, signals -/

/-- `machine.Config` (part_000 lines 191–204). -/
structure Config where
  id : String
  name : String
  enabled : Bool
  triggerState : Result
  threshold : Int
  hitEnabled : Bool
  hitExpect : Result
  hitOffset : Int
  deriving DecidableEq, Repr

/-- The Go zero value of `machine.Config` (what a map lookup on a missing
key yields). -/
def Config.zero : Config :=
  { id := "", name := "", enabled := false, triggerState := Result.ON,
    threshold := 0, hitEnabled := false, hitExpect := Result.ON, hitOffset := 0 }

/-- `machine.Runtime` (part_000 lines 208–223). -/
structure Runtime where
  counter : Int
  waitingReverse : Bool
  hitPending : Bool
  hitCountdown : Int
  lastTriggerHeight : List Nat
  lastTriggerHash : List Nat
  lastTriggerTime : Int
  deriving DecidableEq, Repr

/-- The Go zero value `Runtime{}` (note `WaitingReverse = false`). -/
def Runtime.zero : Runtime :=
  { counter := 0, waitingReverse := false, hitPending := false, hitCountdown := 0,
    lastTriggerHeight := [], lastTriggerHash := [], lastTriggerTime := 0 }

/-- The runtime written by `ResetAll`/`ResetOne` (part_000 lines 355–380):
counter 0, `waitingReverse = true`, no pending HIT, bases zeroed. -/
def resetRuntime : Runtime :=
  { counter := 0, waitingReverse := true, hitPending := false, hitCountdown := 0,
    lastTriggerHeight := [], lastTriggerHash := [], lastTriggerTime := 0 }

/-- `machine.SignalType`. -/
inductive SignalType where
  | trigger
  | hit
  deriving DecidableEq, Repr

/-- `machine.Signal` (part_000 lines 234–247).  The `omitempty` JSON
fields are modelled as always-present fields with their zero values. -/
structure Signal where
  type : SignalType
  machineID : String
  state : Result
  height : List Nat
  hash : List Nat
  time : Int
  baseHeight : List Nat
  baseHash : List Nat
  offset : Int
  deriving DecidableEq, Repr

/-- `machine.reverse` (part_000 lines 487–492). -/
def reverse (s : Result) : Result :=
  if s = Result.ON then Result.OFF else Result.ON

/-- One block's input to `Manager.OnBlock`: the judged state plus the
block identity. -/
structure MB where
  state : Result
  height : List Nat
  hash : List Nat
  time : Int
  deriving DecidableEq, Repr

/-- Default `MB` used with `List.getD` (only read under an
index-in-bounds hypothesis). -/
def mbDefault : MB := { state := Result.ON, height := [], hash := [], time := 0 }

/-- The HIT-countdown section of the `Manager.OnBlock` loop body
(part_000 lines 411–431): when the machine's (current) `HitEnabled` is
set and a HIT is pending, decrement the countdown; when it reaches zero
judge once — emit a HIT iff the state equals `HitExpect` — and clear the
pending state either way. -/
def hitStep (id : String) (cfg : Config) (rt : Runtime) (b : MB) : Runtime × List Signal :=
  if cfg.hitEnabled && rt.hitPending then
    let cd := rt.hitCountdown - 1
    if cd ≤ 0 then
      ({ rt with hitPending := false, hitCountdown := 0 },
       if b.state = cfg.hitExpect then
         [{ type := SignalType.hit, machineID := id, state := b.state,
            height := b.height, hash := b.hash, time := b.time,
            baseHeight := rt.lastTriggerHeight, baseHash := rt.lastTriggerHash,
            offset := cfg.hitOffset }]
       else [])
    else ({ rt with hitCountdown := cd }, [])
  else (rt, [])

/-- The waitingReverse gate, counting and trigger sections of the
`Manager.OnBlock` loop body (part_000 lines 433–481). -/
def moveStep (id : String) (cfg : Config) (rt : Runtime) (b : MB) : Runtime × List Signal :=
  if rt.waitingReverse then
    (if b.state = reverse cfg.triggerState then
       { rt with waitingReverse := false, counter := 0 }
     else rt, [])
  else
    let rt1 := if b.state = cfg.triggerState then { rt with counter := rt.counter + 1 }
               else { rt with counter := 0 }
    if cfg.threshold ≤ rt1.counter then
      let rt2 := { rt1 with lastTriggerHeight := b.height, lastTriggerHash := b.hash,
                            lastTriggerTime := b.time, counter := 0, waitingReverse := true }
      let rt3 := if cfg.hitEnabled then
                   { rt2 with hitPending := true,
                              hitCountdown := if cfg.hitOffset < 1 then 1 else cfg.hitOffset }
                 else { rt2 with hitPending := false, hitCountdown := 0 }
      (rt3, [{ type := SignalType.trigger, machineID := id, state := b.state,
               height := b.height, hash := b.hash, time := b.time,
               baseHeight := [], baseHash := [], offset := 0 }])
    else (rt1, [])

/-- The whole `Manager.OnBlock` loop body for one machine (part_000
lines 396–482): a disabled machine is skipped entirely; otherwise the
HIT countdown runs first, then the gate/count/trigger logic. -/
def stepMachine (id : String) (cfg : Config) (rt : Runtime) (b : MB) : Runtime × List Signal :=
  if cfg.enabled then
    let h := hitStep id cfg rt b
    let m := moveStep id cfg h.1 b
    (m.1, h.2 ++ m.2)
  else (rt, [])

/-! ## machine.Manager -/

/-- A Go map update. -/
def mapInsert {α : Type} (k : String) (v : α) (f : String → Option α) : String → Option α :=
  fun x => if x = k then some v else f x

/-- `machine.Manager` (part_000 lines 251–259): configs and runtimes by
id plus the UI order. -/
structure Manager where
  cfgs : String → Option Config
  rts : String → Option Runtime
  order : List String

/-- The manager with no machines. -/
def emptyManager : Manager :=
  { cfgs := fun _ => none, rts := fun _ => none, order := [] }

/-- Config of machine `id` as the OnBlock loop reads it (`m.cfgs[id]`,
the Go zero value when absent). -/
def Manager.cfgOf (m : Manager) (id : String) : Config :=
  (m.cfgs id).getD Config.zero

/-- Runtime of machine `id` as the OnBlock loop reads it (`m.rts[id]`,
a fresh zero runtime when the entry is nil). -/
def Manager.rtOf (m : Manager) (id : String) : Runtime :=
  (m.rts id).getD Runtime.zero

/-- One iteration of the `Manager.OnBlock` loop (part_000 lines
396–482) as a fold step over the accumulated manager and output. -/
def obStep (b : MB) (acc : Manager × List Signal) (id : String) : Manager × List Signal :=
  let mm := acc.1
  let s := stepMachine id (mm.cfgOf id) (mm.rtOf id) b
  ({ mm with rts := mapInsert id s.1 mm.rts }, acc.2 ++ s.2)

/-- `machine.Manager.OnBlock` (part_000 lines 390–485): run every
machine in UI order against the judged state of one new block, collecting
the emitted signals. -/
def Manager.onBlock (m : Manager) (b : MB) : Manager × List Signal :=
  m.order.foldl (obStep b) (m, [])

/-- `machine.Manager.Upsert` (part_000 lines 300–325): clamp
`Threshold` and `HitOffset` to at least 1, append a brand-new id to the
order, store the config, and create a zero runtime only when the machine
had none.  (The Go normalisation of `TriggerState`/`HitExpect` to ON/OFF
is vacuous here because `Result` is modelled as the two-valued type.) -/
def Manager.upsert (m : Manager) (c0 : Config) : Manager :=
  let c1 := if c0.threshold < 1 then { c0 with threshold := 1 } else c0
  let c := if c1.hitOffset < 1 then { c1 with hitOffset := 1 } else c1
  { cfgs := mapInsert c.id c m.cfgs,
    rts := if (m.rts c.id).isSome then m.rts else mapInsert c.id Runtime.zero m.rts,
    order := if (m.cfgs c.id).isSome then m.order else m.order ++ [c.id] }

/-- `machine.Manager.StopAll` (part_000 lines 344–352): set every
config's `Enabled` to false; runtimes untouched. -/
def Manager.stopAll (m : Manager) : Manager :=
  { m with cfgs := fun id => (m.cfgs id).map (fun c => { c with enabled := false }) }

/-- `machine.Manager.ResetAll` (part_000 lines 355–367): replace every
existing runtime with the reset runtime. -/
def Manager.resetAll (m : Manager) : Manager :=
  { m with rts := fun id => (m.rts id).map (fun _ => resetRuntime) }

/-! ## Runs of the machine engine over a block sequence -/

/-- The manager after `Manager.OnBlock` has processed every block of
`bs` in order. -/
def mRun (m : Manager) (bs : List MB) : Manager :=
  bs.foldl (fun mm b => (mm.onBlock b).1) m

/-- The signals `Manager.OnBlock` emits at step `i` of the run
(processing `bs.getD i`), after the blocks before `i` have been
processed. -/
def mSigsAt (m : Manager) (bs : List MB) (i : Nat) : List Signal :=
  ((mRun m (bs.take i)).onBlock (bs.getD i mbDefault)).2

/-- The signals of one machine inside an OnBlock output. -/
def sigsFor (id : String) (sigs : List Signal) : List Signal :=
  sigs.filter (fun s => decide (s.machineID = id))

/-- Whether a signal list contains a TRIGGER. -/
def hasTrigger (sigs : List Signal) : Bool :=
  sigs.any (fun s => decide (s.type = SignalType.trigger))

/-- Whether a signal list contains a HIT. -/
def hasHit (sigs : List Signal) : Bool :=
  sigs.any (fun s => decide (s.type = SignalType.hit))

/-- Whether machine `id` emits a TRIGGER in an OnBlock output. -/
def hasTriggerFor (id : String) (sigs : List Signal) : Bool :=
  hasTrigger (sigsFor id sigs)

/-- Whether machine `id` emits a HIT in an OnBlock output. -/
def hasHitFor (id : String) (sigs : List Signal) : Bool :=
  hasHit (sigsFor id sigs)

/-- Per-machine run: the runtime of one machine after its loop body has
processed every block of `bs`. -/
def runRt (id : String) (cfg : Config) (rt : Runtime) (bs : List MB) : Runtime :=
  bs.foldl (fun r b => (stepMachine id cfg r b).1) rt

/-- Per-machine run: the machine's runtime just before block `j` is
processed. -/
def preRt (id : String) (cfg : Config) (rt : Runtime) (bs : List MB) (j : Nat) : Runtime :=
  runRt id cfg rt (bs.take j)

/-- Per-machine run: the signals the machine's loop body emits at step
`j`. -/
def sigsAt (id : String) (cfg : Config) (rt : Runtime) (bs : List MB) (j : Nat) : List Signal :=
  (stepMachine id cfg (preRt id cfg rt bs j) (bs.getD j mbDefault)).2

/-! ## block package (backend/block/ringbuffer.go): the dedup ring -/

/-- `source.Block` as the ring and Cores use it: `Height` and `Hash` are
Go strings (byte lists here), `Time` a unix timestamp. -/
structure Block where
  height : List Nat
  hash : List Nat
  time : Int
  deriving DecidableEq, Repr

/-- `block.makeKey` (ringbuffer.go lines 78–80): `height + ":" + hash`
(`':'` is byte 58). -/
def makeKey (b : Block) : List Nat :=
  b.height ++ 58 :: b.hash

/-- `block.RingBuffer` (ringbuffer.go lines 12–17): fixed size, the
stored blocks oldest-first, and the key index (a Go `map[string]struct{}`
set, modelled as a duplicate-free list of keys). -/
structure RingBuffer where
  size : Nat
  items : List Block
  index : List (List Nat)
  deriving DecidableEq, Repr

/-- `block.NewRingBuffer` (ringbuffer.go lines 20–26). -/
def newRingBuffer (size : Nat) : RingBuffer :=
  { size := size, items := [], index := [] }

/-- `block.RingBuffer.Push` (ringbuffer.go lines 41–61): a duplicate key
is rejected; otherwise the oldest block (and its index key) is evicted
when the ring is at capacity and the new block is appended.  The Go code
reads `items[0]` in the eviction branch, which panics on an empty ring;
that is only reachable for `size = 0` (never constructed: the repo uses
size 50) and is modelled as a no-op eviction. -/
def RingBuffer.push (r : RingBuffer) (b : Block) : RingBuffer × Bool :=
  let key := makeKey b
  if key ∈ r.index then (r, false)
  else
    let r1 := if r.size ≤ r.items.length then
        match r.items with
        | old :: rest => { r with items := rest, index := r.index.erase (makeKey old) }
        | [] => r
      else r
    ({ r1 with items := r1.items ++ [b], index := key :: r1.index }, true)

/-- A sequence of pushes (each block offered to the ring in order). -/
def pushAll (r : RingBuffer) (bs : List Block) : RingBuffer :=
  bs.foldl (fun rr b => (rr.push b).1) r

/-- Modelled from the spec: `RingBuffer.Reset` is called by the
part_004 `Core.SwitchJudgeRule` but its body is not under src (the
ringbuffer.go revision in src lacks it); spec §4.D says
`Reset(): clear.` -/
def RingBuffer.reset (r : RingBuffer) : RingBuffer :=
  { r with items := [], index := [] }

/-! ## strconv.ParseInt (base 10, bitSize 64) as used by the part_003 Core -/

/-- Decimal value of a digit string; `none` if any byte is not an ASCII
digit. -/
def digitsVal (l : List Nat) : Option Nat :=
  l.foldl (fun acc c =>
    match acc with
    | none => none
    | some n => if 48 ≤ c ∧ c ≤ 57 then some (n * 10 + (c - 48)) else none) (some 0)

/-- `strconv.ParseInt(s, 10, 64)`: optional sign, at least one digit,
all digits, 64-bit signed range; `none` on any error. -/
def parseInt64 (s : List Nat) : Option Int :=
  match s with
  | [] => none
  | c :: rest =>
    let p : Bool × List Nat :=
      if c = 45 then (true, rest) else if c = 43 then (false, rest) else (false, s)
    match p.2 with
    | [] => none
    | _ =>
      match digitsVal p.2 with
      | none => none
      | some n =>
        if p.1 then
          if n ≤ 2 ^ 63 then some (-(n : Int)) else none
        else
          if n ≤ 2 ^ 63 - 1 then some (n : Int) else none

/-- `app.mustParseInt64` (part_003 lines 262–268): 0 on any parse
error. -/
def mustParseInt64 (s : List Nat) : Int :=
  (parseInt64 s).getD 0

/-! ## app.Core of src/unnamed/part_003 (second document): OnBlock -/

/-- The part_003 `app.Core` (lines 146–166), with the machine engine
held abstract: the revision's `mgr.ProcessBlock` is not under src, so the
engine is a state `σ` stepped by a function passed to `onBlock` (its
`time.Now()` argument — wall clock — is not modelled). -/
structure Core3 (σ : Type) where
  ring : RingBuffer
  rule : String
  mgrState : σ
  listening : Bool
  lastHeight : Int
  lastHash : List Nat
  lastTime : Int
  reconnects : Int
  majorIncidents : Int

/-- The part_003 `app.Core.OnBlock` (lines 184–229): validate, dedup
through the ring, detect height gaps (`majorIncidents`), always update
the last-block status, judge the hash, run the machine engine, and
return the signals handed to the broadcaster. -/
def Core3.onBlock {σ τ : Type} (engine : Int → Result → σ → σ × List τ)
    (c : Core3 σ) (b : Option Block) : Core3 σ × List τ :=
  match b with
  | none => (c, [])
  | some b =>
    if b.hash = [] ∨ b.height = [] then (c, [])
    else
      let pr := c.ring.push b
      if pr.2 = false then ({ c with ring := pr.1 }, [])
      else
        let h := mustParseInt64 b.height
        let prevHeight := c.lastHeight
        let inc : Int := if prevHeight > 0 ∧ h > prevHeight + 1 then 1 else 0
        let st := judgeDecide c.rule b.hash
        let es := engine h st c.mgrState
        ({ c with ring := pr.1, lastHeight := h, lastHash := b.hash, lastTime := b.time,
                  majorIncidents := c.majorIncidents + inc, mgrState := es.1 }, es.2)

/-! ## app.Core of src/unnamed/part_004: SwitchJudgeRule -/

/-- The part_004 `app.Core` (lines 22–39): judge rule, machine manager,
dedup ring, last-block status and the parsed `lastHeightNum` used for
gap detection. -/
structure Core2 where
  rule : String
  manager : Manager
  ring : RingBuffer
  lastHeight : List Nat
  lastHash : List Nat
  lastTime : Int
  lastHeightNum : Int
  reconnects : Int

/-- The part_004 `app.Core.SwitchJudgeRule` (lines 95–106): stop all
machines, reset every runtime, clear the dedup ring, install the new
rule, and zero the gap-detection height. -/
def Core2.switchJudgeRule (c : Core2) (rule : String) : Core2 :=
  { c with manager := c.manager.stopAll.resetAll,
           ring := c.ring.reset,
           rule := rule,
           lastHeightNum := 0 }


/-! ## Concrete instances used in witnesses and counterexamples -/

/-- A machine config with threshold 2 (no HIT), used to exercise the
trigger-streak property. -/
def c1cfg : Config :=
  { id := "m1", name := "", enabled := true, triggerState := Result.ON,
    threshold := 2, hitEnabled := false, hitExpect := Result.ON, hitOffset := 1 }

/-- Manager holding only `c1cfg`, as `NewManager` builds it
(`Upsert` then `ResetAll`). -/
def c1mgr : Manager := (emptyManager.upsert c1cfg).resetAll

/-- A block input with the given judged state. -/
def mkMB (s : Result) (h : Nat) : MB :=
  { state := s, height := [h], hash := [h], time := 0 }

/-- OFF, ON, ON: unlock then a streak of two ON blocks. -/
def c1bs : List MB := [mkMB Result.OFF 48, mkMB Result.ON 49, mkMB Result.ON 50]

/-- A machine config with threshold 1 and HIT armed at offset 4. -/
def c2cfg : Config :=
  { id := "m1", name := "", enabled := true, triggerState := Result.ON,
    threshold := 1, hitEnabled := true, hitExpect := Result.ON, hitOffset := 4 }

/-- Manager holding only `c2cfg`. -/
def c2mgr : Manager := (emptyManager.upsert c2cfg).resetAll

/-- OFF, ON (trigger), OFF (unlock), ON (trigger again, re-arming the
countdown), ON, ON: the 4th block after the first trigger carries the
expected state but the countdown was re-armed. -/
def c2bs : List MB :=
  [mkMB Result.OFF 48, mkMB Result.ON 49, mkMB Result.OFF 50,
   mkMB Result.ON 51, mkMB Result.ON 52, mkMB Result.ON 53]

/-- Same machine with HIT offset 2 for the positive HIT witness. -/
def c2cfgW : Config := { c2cfg with hitOffset := 2 }

/-- Manager holding only `c2cfgW`. -/
def c2mgrW : Manager := (emptyManager.upsert c2cfgW).resetAll

/-- OFF, ON (trigger, arm offset 2), OFF, ON: HIT due at index 3. -/
def c2bsW : List MB :=
  [mkMB Result.OFF 48, mkMB Result.ON 49, mkMB Result.OFF 50, mkMB Result.ON 51]

/-- A machine config with threshold 1 and HIT armed at offset 1. -/
def c3cfg : Config :=
  { id := "m1", name := "", enabled := true, triggerState := Result.ON,
    threshold := 1, hitEnabled := true, hitExpect := Result.ON, hitOffset := 1 }

/-- Manager holding only `c3cfg`. -/
def c3mgr : Manager := (emptyManager.upsert c3cfg).resetAll

/-- First block of the C3/C7/C9 scenario: OFF unlocks the gate. -/
def c3run1 : Manager × List Signal := c3mgr.onBlock (mkMB Result.OFF 48)

/-- Second block: ON triggers and arms the HIT countdown (offset 1). -/
def c3run2 : Manager × List Signal := (c3run1.1).onBlock (mkMB Result.ON 49)

/-- Reconfigure the machine with `hitEnabled = false` between the TRIGGER
and the due evaluation block (runtime is preserved by `Upsert`). -/
def c3mgr2 : Manager := (c3run2.1).upsert { c3cfg with hitEnabled := false }

/-- Third block: carries the expected state at the due offset. -/
def c3run3 : Manager × List Signal := c3mgr2.onBlock (mkMB Result.ON 50)

/-- Disable the machine while its HIT countdown is pending. -/
def c9mgr : Manager := (c3run2.1).upsert { c3cfg with enabled := false }

/-- The runtime of the machine at that point: counter reset, gate closed,
HIT pending with one tick left, trigger base recorded. -/
def c9rt : Runtime :=
  { counter := 0, waitingReverse := true, hitPending := true, hitCountdown := 1,
    lastTriggerHeight := [49], lastTriggerHash := [49], lastTriggerTime := 0 }

/-- A Core2 instance mid-stream (part_004 revision), used to exercise
`SwitchJudgeRule`. -/
def c4core : Core2 :=
  { rule := "lucky", manager := c3run2.1,
    ring := ((newRingBuffer 50).push { height := [49], hash := [49], time := 0 }).1,
    lastHeight := [49], lastHash := [49], lastTime := 0,
    lastHeightNum := 49, reconnects := 0 }

/-- Blocks pushed into a capacity-2 ring in the C5 witness. -/
def c5b1 : Block := { height := [49], hash := [97], time := 0 }

/-- Second ring block. -/
def c5b2 : Block := { height := [50], hash := [97], time := 0 }

/-- Third ring block (forces an eviction at capacity 2). -/
def c5b3 : Block := { height := [51], hash := [97], time := 0 }

/-- A part_003 Core whose last seen height is 501, with an engine that
returns a marker signal list. -/
def c8core : Core3 Unit :=
  { ring := newRingBuffer 50, rule := "lucky", mgrState := (),
    listening := true, lastHeight := 501, lastHash := [], lastTime := 0,
    reconnects := 0, majorIncidents := 0 }

/-- Height 504, hash a1: admitted after height 501 this is a gap. -/
def c8blk : Block := { height := [53, 48, 52], hash := [97, 49], time := 7 }

/-- A stand-in machine engine for the abstract Core3 engine slot. -/
def c8engine : Int → Result → Unit → Unit × List Nat := fun _ _ _ => ((), [7])

/-- Invariant the dedup ring maintains: the size field is the configured
capacity, at most that many blocks are stored, their keys are pairwise
distinct, and the index is exactly the (duplicate-free) set of stored
keys. -/
def RInv (n : Nat) (r : RingBuffer) : Prop :=
  r.size = n ∧ r.items.length ≤ n ∧ (r.items.map makeKey).Nodup ∧
  r.index.Nodup ∧ (∀ k, k ∈ r.index ↔ k ∈ r.items.map makeKey)

/-- Counter invariant of one enabled machine along a run: the counter is
exactly the length of the streak of trailing blocks that matched
`triggerState` while the gate was open, it stays below the threshold, and
the gate being closed forces a zero counter. -/
def MInv (id : String) (cfg : Config) (rt0 : Runtime) (bs : List MB) : Prop :=
  0 ≤ (runRt id cfg rt0 bs).counter ∧
  (runRt id cfg rt0 bs).counter < cfg.threshold ∧
  (runRt id cfg rt0 bs).counter.toNat ≤ bs.length ∧
  ((runRt id cfg rt0 bs).waitingReverse = true → (runRt id cfg rt0 bs).counter = 0) ∧
  (∀ j, bs.length - (runRt id cfg rt0 bs).counter.toNat ≤ j → j < bs.length →
    (bs.getD j mbDefault).state = cfg.triggerState ∧
    (runRt id cfg rt0 (bs.take j)).waitingReverse = false)

/-! ## Bridge lemmas: the OnBlock loop acts machine-wise -/

theorem hitStep_machineID (id : String) (cfg : Config) (rt : Runtime) (b : MB) :
    ∀ s ∈ (hitStep id cfg rt b).2, s.machineID = id := by
  intro s hs
  by_cases h1 : (cfg.hitEnabled && rt.hitPending) = true
  · by_cases h2 : rt.hitCountdown - 1 ≤ 0
    · by_cases h3 : b.state = cfg.hitExpect
      · simp only [hitStep, h1, if_true, h2, h3] at hs
        simp at hs
        simp [hs]
      · simp [hitStep, h1, h2, h3] at hs
    · simp [hitStep, h1, h2] at hs
  · simp [hitStep, h1] at hs

theorem moveStep_machineID (id : String) (cfg : Config) (rt : Runtime) (b : MB) :
    ∀ s ∈ (moveStep id cfg rt b).2, s.machineID = id := by
  intro s hs
  by_cases h1 : rt.waitingReverse = true
  · simp [moveStep, h1] at hs
  · by_cases h2 : b.state = cfg.triggerState
    · by_cases h3 : cfg.threshold ≤ rt.counter + 1
      · simp only [moveStep, h1, if_false, h2, if_true, h3] at hs
        simp at hs
        simp [hs]
      · simp [moveStep, h1, h2, h3] at hs
    · by_cases h3 : cfg.threshold ≤ 0
      · simp only [moveStep, h1, if_false, h2, h3] at hs
        simp at hs
        simp [hs]
      · simp [moveStep, h1, h2, h3] at hs

theorem step_machineID (id : String) (cfg : Config) (rt : Runtime) (b : MB) :
    ∀ s ∈ (stepMachine id cfg rt b).2, s.machineID = id := by
  intro s hs
  unfold stepMachine at hs
  split at hs
  · simp only [List.mem_append] at hs
    rcases hs with hs | hs
    · exact hitStep_machineID id cfg rt b s hs
    · exact moveStep_machineID id cfg _ b s hs
  · simp at hs

theorem obStep_fold (b : MB) (ids : List String) :
    ∀ (m : Manager) (out : List Signal), ids.Nodup →
    (ids.foldl (obStep b) (m, out)).1.cfgs = m.cfgs ∧
    (ids.foldl (obStep b) (m, out)).1.order = m.order ∧
    (∀ x, (ids.foldl (obStep b) (m, out)).1.rts x =
      if x ∈ ids then some (stepMachine x (m.cfgOf x) (m.rtOf x) b).1 else m.rts x) ∧
    (ids.foldl (obStep b) (m, out)).2 =
      out ++ (ids.map (fun x => (stepMachine x (m.cfgOf x) (m.rtOf x) b).2)).flatten := by
  induction ids with
  | nil => intro m out _; simp
  | cons id rest ih =>
    intro m out hnd
    rcases List.nodup_cons.mp hnd with ⟨hnid, hrest⟩
    have hfold : (id :: rest).foldl (obStep b) (m, out) =
        rest.foldl (obStep b) (obStep b (m, out) id) := by
      simp [List.foldl_cons]
    set m1 : Manager :=
      { m with rts := mapInsert id (stepMachine id (m.cfgOf id) (m.rtOf id) b).1 m.rts } with hm1
    have hstep : obStep b (m, out) id =
        (m1, out ++ (stepMachine id (m.cfgOf id) (m.rtOf id) b).2) := rfl
    have hcfg1 : m1.cfgs = m.cfgs := rfl
    have hord1 : m1.order = m.order := rfl
    obtain ⟨ha, hb, hc, hd⟩ := ih m1 (out ++ (stepMachine id (m.cfgOf id) (m.rtOf id) b).2) hrest
    have hcfgOf : ∀ x, m1.cfgOf x = m.cfgOf x := fun x => rfl
    have hrtOf : ∀ x, x ∈ rest → m1.rtOf x = m.rtOf x := by
      intro x hx
      have hne : x ≠ id := fun h => hnid (h ▸ hx)
      simp [Manager.rtOf, hm1, mapInsert, hne]
    refine ⟨?_, ?_, ?_, ?_⟩
    · rw [hfold, hstep, ha, hcfg1]
    · rw [hfold, hstep, hb, hord1]
    · intro x
      rw [hfold, hstep, hc x]
      by_cases hx : x ∈ rest
      · have hne : x ≠ id := fun h => hnid (h ▸ hx)
        simp [hx, hcfgOf, hrtOf x hx, List.mem_cons, hne]
      · by_cases hxi : x = id
        · subst hxi
          simp [hx, hm1, mapInsert, Manager.rtOf]
        · simp [hx, hxi, hm1, mapInsert, List.mem_cons]
    · rw [hfold, hstep, hd]
      have hmap : rest.map (fun x => (stepMachine x (m1.cfgOf x) (m1.rtOf x) b).2) =
          rest.map (fun x => (stepMachine x (m.cfgOf x) (m.rtOf x) b).2) := by
        apply List.map_congr_left
        intro x hx
        rw [hcfgOf, hrtOf x hx]
      rw [hmap]
      simp [List.append_assoc]

theorem onBlock_cfgs (m : Manager) (b : MB) (h : m.order.Nodup) :
    (m.onBlock b).1.cfgs = m.cfgs :=
  (obStep_fold b m.order m [] h).1

theorem onBlock_order (m : Manager) (b : MB) (h : m.order.Nodup) :
    (m.onBlock b).1.order = m.order :=
  (obStep_fold b m.order m [] h).2.1

theorem onBlock_rts (m : Manager) (b : MB) (h : m.order.Nodup) (x : String) :
    (m.onBlock b).1.rts x =
      if x ∈ m.order then some (stepMachine x (m.cfgOf x) (m.rtOf x) b).1 else m.rts x :=
  (obStep_fold b m.order m [] h).2.2.1 x

theorem onBlock_out (m : Manager) (b : MB) (h : m.order.Nodup) :
    (m.onBlock b).2 =
      (m.order.map (fun x => (stepMachine x (m.cfgOf x) (m.rtOf x) b).2)).flatten := by
  have := (obStep_fold b m.order m [] h).2.2.2
  simpa using this

theorem onBlock_rtOf (m : Manager) (b : MB) (h : m.order.Nodup) (x : String)
    (hx : x ∈ m.order) :
    (m.onBlock b).1.rtOf x = (stepMachine x (m.cfgOf x) (m.rtOf x) b).1 := by
  simp [Manager.rtOf, onBlock_rts m b h x, hx]

theorem sigsFor_join_not_mem (id : String) (m : Manager) (b : MB) (ids : List String)
    (hid : id ∉ ids) :
    sigsFor id ((ids.map (fun x => (stepMachine x (m.cfgOf x) (m.rtOf x) b).2)).flatten) = [] := by
  induction ids with
  | nil => simp [sigsFor]
  | cons y rest ih =>
    have hy : id ≠ y := fun h => hid (h ▸ List.mem_cons_self y rest)
    have hrest : id ∉ rest := fun h => hid (List.mem_cons_of_mem y h)
    have hstep : List.filter (fun s => decide (s.machineID = id))
        (stepMachine y (m.cfgOf y) (m.rtOf y) b).2 = [] := by
      apply List.filter_eq_nil_iff.mpr
      intro s hs
      have := step_machineID y (m.cfgOf y) (m.rtOf y) b s hs
      simp [this, hy.symm]
    have htail := ih hrest
    simp only [sigsFor] at htail ⊢
    simp [List.filter_append, hstep, htail]

theorem onBlock_sigsFor (m : Manager) (b : MB) (h : m.order.Nodup) (id : String) :
    sigsFor id (m.onBlock b).2 =
      if id ∈ m.order then (stepMachine id (m.cfgOf id) (m.rtOf id) b).2 else [] := by
  rw [onBlock_out m b h]
  by_cases hid : id ∈ m.order
  · obtain ⟨l1, l2, hsplit⟩ := List.append_of_mem hid
    have hnd : (l1 ++ id :: l2).Nodup := hsplit ▸ h
    have h1 : id ∉ l1 := by
      intro hin
      exact ((List.nodup_append.mp hnd).2.2 hin) (List.mem_cons_self id l2)
    have h2 : id ∉ l2 := (List.nodup_cons.mp (List.nodup_append.mp hnd).2.1).1
    have hself : List.filter (fun s => decide (s.machineID = id))
        (stepMachine id (m.cfgOf id) (m.rtOf id) b).2 =
        (stepMachine id (m.cfgOf id) (m.rtOf id) b).2 := by
      apply List.filter_eq_self.mpr
      intro s hs
      simp [step_machineID id (m.cfgOf id) (m.rtOf id) b s hs]
    have hleft := sigsFor_join_not_mem id m b l1 h1
    have hright := sigsFor_join_not_mem id m b l2 h2
    simp only [sigsFor] at hleft hright ⊢
    rw [hsplit, if_pos (show id ∈ l1 ++ id :: l2 by simp)]
    simp [List.filter_append, hleft, hright, hself]
  · rw [if_neg hid]
    exact sigsFor_join_not_mem id m b m.order hid

/-! ## Lifting a Manager run to per-machine runs -/

theorem mRun_cons (m : Manager) (b : MB) (bs : List MB) :
    mRun m (b :: bs) = mRun (m.onBlock b).1 bs := rfl

theorem mRun_skeleton (bs : List MB) :
    ∀ m : Manager, m.order.Nodup →
      (mRun m bs).cfgs = m.cfgs ∧ (mRun m bs).order = m.order := by
  induction bs with
  | nil => intro m _; exact ⟨rfl, rfl⟩
  | cons b bs ih =>
    intro m h
    have hord := onBlock_order m b h
    have hnd1 : (m.onBlock b).1.order.Nodup := hord ▸ h
    obtain ⟨ha, hb⟩ := ih (m.onBlock b).1 hnd1
    rw [mRun_cons]
    exact ⟨ha.trans (onBlock_cfgs m b h), hb.trans hord⟩

theorem mRun_rtOf (bs : List MB) :
    ∀ m : Manager, m.order.Nodup → ∀ id ∈ m.order,
      (mRun m bs).rtOf id = runRt id (m.cfgOf id) (m.rtOf id) bs := by
  induction bs with
  | nil => intro m _ id _; rfl
  | cons b bs ih =>
    intro m h id hid
    have hord := onBlock_order m b h
    have hnd1 : (m.onBlock b).1.order.Nodup := hord ▸ h
    have hid1 : id ∈ (m.onBlock b).1.order := hord ▸ hid
    have hcfg : (m.onBlock b).1.cfgOf id = m.cfgOf id := by
      simp [Manager.cfgOf, onBlock_cfgs m b h]
    rw [mRun_cons, ih (m.onBlock b).1 hnd1 id hid1, hcfg,
        onBlock_rtOf m b h id hid]
    rfl

theorem mSigsAt_eq (m : Manager) (bs : List MB) (i : Nat) (h : m.order.Nodup)
    (id : String) (hid : id ∈ m.order) :
    sigsFor id (mSigsAt m bs i) = sigsAt id (m.cfgOf id) (m.rtOf id) bs i := by
  obtain ⟨ha, hb⟩ := mRun_skeleton (bs.take i) m h
  have hnd : (mRun m (bs.take i)).order.Nodup := hb ▸ h
  have hid2 : id ∈ (mRun m (bs.take i)).order := hb ▸ hid
  unfold mSigsAt
  rw [onBlock_sigsFor (mRun m (bs.take i)) (bs.getD i mbDefault) hnd id, if_pos hid2]
  have hcfg : (mRun m (bs.take i)).cfgOf id = m.cfgOf id := by simp [Manager.cfgOf, ha]
  rw [hcfg, mRun_rtOf (bs.take i) m h id hid]
  rfl

theorem hasTriggerFor_mSigsAt (m : Manager) (bs : List MB) (i : Nat) (h : m.order.Nodup)
    (id : String) (hid : id ∈ m.order) :
    hasTriggerFor id (mSigsAt m bs i) =
      hasTrigger (sigsAt id (m.cfgOf id) (m.rtOf id) bs i) := by
  unfold hasTriggerFor
  rw [mSigsAt_eq m bs i h id hid]

theorem hasHitFor_mSigsAt (m : Manager) (bs : List MB) (i : Nat) (h : m.order.Nodup)
    (id : String) (hid : id ∈ m.order) :
    hasHitFor id (mSigsAt m bs i) =
      hasHit (sigsAt id (m.cfgOf id) (m.rtOf id) bs i) := by
  unfold hasHitFor
  rw [mSigsAt_eq m bs i h id hid]

/-! ## Characterisation of one machine step -/

theorem hitStep_counter (id : String) (cfg : Config) (rt : Runtime) (b : MB) :
    (hitStep id cfg rt b).1.counter = rt.counter := by
  by_cases h1 : (cfg.hitEnabled && rt.hitPending) = true
  · by_cases h2 : rt.hitCountdown - 1 ≤ 0 <;> simp [hitStep, h1, h2]
  · simp [hitStep, h1]

theorem hitStep_wr (id : String) (cfg : Config) (rt : Runtime) (b : MB) :
    (hitStep id cfg rt b).1.waitingReverse = rt.waitingReverse := by
  by_cases h1 : (cfg.hitEnabled && rt.hitPending) = true
  · by_cases h2 : rt.hitCountdown - 1 ≤ 0 <;> simp [hitStep, h1, h2]
  · simp [hitStep, h1]

theorem hitStep_no_trigger (id : String) (cfg : Config) (rt : Runtime) (b : MB) :
    hasTrigger (hitStep id cfg rt b).2 = false := by
  by_cases h1 : (cfg.hitEnabled && rt.hitPending) = true
  · by_cases h2 : rt.hitCountdown - 1 ≤ 0
    · by_cases h3 : b.state = cfg.hitExpect <;> simp [hitStep, hasTrigger, h1, h2, h3]
    · simp [hitStep, hasTrigger, h1, h2]
  · simp [hitStep, hasTrigger, h1]

theorem moveStep_no_hit (id : String) (cfg : Config) (rt : Runtime) (b : MB) :
    hasHit (moveStep id cfg rt b).2 = false := by
  by_cases h1 : rt.waitingReverse = true
  · simp [moveStep, hasHit, h1]
  · by_cases h2 : b.state = cfg.triggerState
    · by_cases h3 : cfg.threshold ≤ rt.counter + 1 <;>
        simp [moveStep, hasHit, h1, h2, h3]
    · by_cases h3 : cfg.threshold ≤ (0 : Int) <;>
        simp [moveStep, hasHit, h1, h2, h3]

theorem hasHit_hitStep_iff (id : String) (cfg : Config) (rt : Runtime) (b : MB) :
    hasHit (hitStep id cfg rt b).2 = true ↔
      cfg.hitEnabled = true ∧ rt.hitPending = true ∧ rt.hitCountdown ≤ 1 ∧
      b.state = cfg.hitExpect := by
  by_cases h1 : (cfg.hitEnabled && rt.hitPending) = true
  · rcases (show cfg.hitEnabled = true ∧ rt.hitPending = true by simpa using h1) with ⟨he, hp⟩
    by_cases h2 : rt.hitCountdown - 1 ≤ 0
    · by_cases h3 : b.state = cfg.hitExpect <;>
        simp [hitStep, hasHit, h1, h2, h3, he, hp] <;> omega
    · simp [hitStep, hasHit, h1, h2]
      omega
  · simp only [Bool.and_eq_true, not_and] at h1
    by_cases he : cfg.hitEnabled = true
    · have hp : rt.hitPending ≠ true := h1 he
      simp [hitStep, hasHit, Bool.and_eq_true, he, hp]
    · simp [hitStep, hasHit, Bool.and_eq_true, he]

theorem hasTrigger_moveStep_iff (id : String) (cfg : Config) (rt : Runtime) (b : MB) :
    hasTrigger (moveStep id cfg rt b).2 = true ↔
      rt.waitingReverse = false ∧
      cfg.threshold ≤ (if b.state = cfg.triggerState then rt.counter + 1 else 0) := by
  by_cases h1 : rt.waitingReverse = true
  · simp [moveStep, hasTrigger, h1]
  · have h1' : rt.waitingReverse = false := by simp at h1; exact h1
    by_cases h2 : b.state = cfg.triggerState
    · by_cases h3 : cfg.threshold ≤ rt.counter + 1 <;>
        simp [moveStep, hasTrigger, h1', h2, h3]
    · by_cases h3 : cfg.threshold ≤ (0 : Int) <;>
        simp [moveStep, hasTrigger, h1', h2, h3]

theorem stepMachine_enabled (id : String) (cfg : Config) (rt : Runtime) (b : MB)
    (hen : cfg.enabled = true) :
    stepMachine id cfg rt b =
      ((moveStep id cfg (hitStep id cfg rt b).1 b).1,
       (hitStep id cfg rt b).2 ++ (moveStep id cfg (hitStep id cfg rt b).1 b).2) := by
  simp [stepMachine, hen]

theorem stepMachine_disabled (id : String) (cfg : Config) (rt : Runtime) (b : MB)
    (hen : cfg.enabled = false) :
    stepMachine id cfg rt b = (rt, []) := by
  simp [stepMachine, hen]

theorem hasTrigger_append (l1 l2 : List Signal) :
    hasTrigger (l1 ++ l2) = (hasTrigger l1 || hasTrigger l2) := by
  simp [hasTrigger]

theorem hasHit_append (l1 l2 : List Signal) :
    hasHit (l1 ++ l2) = (hasHit l1 || hasHit l2) := by
  simp [hasHit]

theorem hasTrigger_step_iff (id : String) (cfg : Config) (rt : Runtime) (b : MB) :
    hasTrigger (stepMachine id cfg rt b).2 = true ↔
      cfg.enabled = true ∧ rt.waitingReverse = false ∧
      cfg.threshold ≤ (if b.state = cfg.triggerState then rt.counter + 1 else 0) := by
  by_cases hen : cfg.enabled = true
  · rw [stepMachine_enabled id cfg rt b hen]
    simp only [hasTrigger_append, Bool.or_eq_true, hitStep_no_trigger, false_or]
    rw [hasTrigger_moveStep_iff]
    rw [hitStep_wr, hitStep_counter]
    simp [hen]
  · have hen' : cfg.enabled = false := by simp at hen; exact hen
    rw [stepMachine_disabled id cfg rt b hen']
    simp [hasTrigger, hen']

theorem hasHit_step_iff (id : String) (cfg : Config) (rt : Runtime) (b : MB) :
    hasHit (stepMachine id cfg rt b).2 = true ↔
      cfg.enabled = true ∧ cfg.hitEnabled = true ∧ rt.hitPending = true ∧
      rt.hitCountdown ≤ 1 ∧ b.state = cfg.hitExpect := by
  by_cases hen : cfg.enabled = true
  · rw [stepMachine_enabled id cfg rt b hen]
    simp only [hasHit_append, Bool.or_eq_true, moveStep_no_hit, or_false]
    rw [hasHit_hitStep_iff]
    simp [hen]
  · have hen' : cfg.enabled = false := by simp at hen; exact hen
    rw [stepMachine_disabled id cfg rt b hen']
    simp [hasHit, hen']

theorem moveStep_trigger_post (id : String) (cfg : Config) (rt : Runtime) (b : MB)
    (htr : hasTrigger (moveStep id cfg rt b).2 = true) :
    (moveStep id cfg rt b).1.counter = 0 ∧
    (moveStep id cfg rt b).1.waitingReverse = true ∧
    (cfg.hitEnabled = true →
      (moveStep id cfg rt b).1.hitPending = true ∧
      (moveStep id cfg rt b).1.hitCountdown =
        (if cfg.hitOffset < 1 then 1 else cfg.hitOffset)) ∧
    (cfg.hitEnabled = false →
      (moveStep id cfg rt b).1.hitPending = false ∧
      (moveStep id cfg rt b).1.hitCountdown = 0) := by
  obtain ⟨hwr, hth⟩ := (hasTrigger_moveStep_iff id cfg rt b).mp htr
  by_cases h2 : b.state = cfg.triggerState
  · have hth' : cfg.threshold ≤ rt.counter + 1 := by rwa [if_pos h2] at hth
    by_cases he : cfg.hitEnabled = true <;>
      simp [moveStep, hwr, h2, hth', he]
  · have hth' : cfg.threshold ≤ (0 : Int) := by rwa [if_neg h2] at hth
    by_cases he : cfg.hitEnabled = true <;>
      simp [moveStep, hwr, h2, hth', he]

theorem moveStep_no_trigger_post (id : String) (cfg : Config) (rt : Runtime) (b : MB)
    (htr : hasTrigger (moveStep id cfg rt b).2 = false) :
    (moveStep id cfg rt b).1.hitPending = rt.hitPending ∧
    (moveStep id cfg rt b).1.hitCountdown = rt.hitCountdown := by
  by_cases h1 : rt.waitingReverse = true
  · by_cases h2 : b.state = reverse cfg.triggerState <;> simp [moveStep, h1, h2]
  · have h1' : rt.waitingReverse = false := by simp at h1; exact h1
    have hth : ¬ cfg.threshold ≤ (if b.state = cfg.triggerState then rt.counter + 1 else 0) := by
      intro hc
      have := (hasTrigger_moveStep_iff id cfg rt b).mpr ⟨h1', hc⟩
      rw [htr] at this
      exact Bool.false_ne_true this
    by_cases h2 : b.state = cfg.triggerState
    · rw [if_pos h2] at hth
      simp [moveStep, h1', h2, hth]
    · rw [if_neg h2] at hth
      simp [moveStep, h1', h2, hth]

theorem step_trigger_post (id : String) (cfg : Config) (rt : Runtime) (b : MB)
    (htr : hasTrigger (stepMachine id cfg rt b).2 = true) :
    (stepMachine id cfg rt b).1.counter = 0 ∧
    (stepMachine id cfg rt b).1.waitingReverse = true ∧
    (cfg.hitEnabled = true →
      (stepMachine id cfg rt b).1.hitPending = true ∧
      (stepMachine id cfg rt b).1.hitCountdown =
        (if cfg.hitOffset < 1 then 1 else cfg.hitOffset)) := by
  have hen : cfg.enabled = true := ((hasTrigger_step_iff id cfg rt b).mp htr).1
  rw [stepMachine_enabled id cfg rt b hen] at htr ⊢
  have htr' : hasTrigger (moveStep id cfg (hitStep id cfg rt b).1 b).2 = true := by
    simpa [hasTrigger_append, hitStep_no_trigger] using htr
  have := moveStep_trigger_post id cfg (hitStep id cfg rt b).1 b htr'
  exact ⟨this.1, this.2.1, this.2.2.1⟩

theorem runRt_append (id : String) (cfg : Config) (rt : Runtime) (bs : List MB) (b : MB) :
    runRt id cfg rt (bs ++ [b]) = (stepMachine id cfg (runRt id cfg rt bs) b).1 := by
  simp [runRt, List.foldl_append]

theorem moveStep_unlock (id : String) (cfg : Config) (rt : Runtime) (b : MB)
    (hwr : rt.waitingReverse = true) (hst : b.state = reverse cfg.triggerState) :
    (moveStep id cfg rt b).1.counter = 0 ∧
    (moveStep id cfg rt b).1.waitingReverse = false := by
  simp [moveStep, hwr, hst]

theorem moveStep_stay_waiting (id : String) (cfg : Config) (rt : Runtime) (b : MB)
    (hwr : rt.waitingReverse = true) (hst : ¬ b.state = reverse cfg.triggerState) :
    (moveStep id cfg rt b).1.counter = rt.counter ∧
    (moveStep id cfg rt b).1.waitingReverse = true := by
  simp [moveStep, hwr, hst]

theorem moveStep_count_up (id : String) (cfg : Config) (rt : Runtime) (b : MB)
    (hwr : rt.waitingReverse = false) (hst : b.state = cfg.triggerState)
    (hth : ¬ cfg.threshold ≤ rt.counter + 1) :
    (moveStep id cfg rt b).1.counter = rt.counter + 1 ∧
    (moveStep id cfg rt b).1.waitingReverse = false := by
  simp [moveStep, hwr, hst, hth]

theorem moveStep_count_reset (id : String) (cfg : Config) (rt : Runtime) (b : MB)
    (hwr : rt.waitingReverse = false) (hst : ¬ b.state = cfg.triggerState)
    (hth : ¬ cfg.threshold ≤ (0 : Int)) :
    (moveStep id cfg rt b).1.counter = 0 ∧
    (moveStep id cfg rt b).1.waitingReverse = false := by
  simp [moveStep, hwr, hst, hth]

theorem minv_holds (id : String) (cfg : Config) (hen : cfg.enabled = true)
    (hth : 1 ≤ cfg.threshold) (rt0 : Runtime) (hc0 : rt0.counter = 0) :
    ∀ bs : List MB, MInv id cfg rt0 bs := by
  intro bs
  induction bs using List.reverseRecOn with
  | nil =>
    refine ⟨by simp [runRt, hc0], by simp [runRt, hc0]; omega, by simp [runRt, hc0],
      fun _ => by simp [runRt, hc0], fun j hj hj2 => by simp at hj2⟩
  | append_singleton bs b ih =>
    obtain ⟨i0, i1, i2, i3, i4⟩ := ih
    set r := runRt id cfg rt0 bs with hr
    have hr' : runRt id cfg rt0 (bs ++ [b]) = (moveStep id cfg (hitStep id cfg r b).1 b).1 := by
      rw [runRt_append, stepMachine_enabled id cfg r b hen]
    set rH := (hitStep id cfg r b).1 with hrH
    have hHc : rH.counter = r.counter := hitStep_counter id cfg r b
    have hHw : rH.waitingReverse = r.waitingReverse := hitStep_wr id cfg r b
    have htake : ∀ j, j ≤ bs.length → (bs ++ [b]).take j = bs.take j := by
      intro j hj
      rw [List.take_append_of_le_length hj]
    have hgetD : ∀ j, j < bs.length → (bs ++ [b]).getD j mbDefault = bs.getD j mbDefault := by
      intro j hj
      exact List.getD_append bs [b] mbDefault j hj
    have hgetLast : (bs ++ [b]).getD bs.length mbDefault = b := by
      rw [List.getD_append_right bs [b] mbDefault bs.length (le_refl _)]
      simp [List.getD]
    by_cases hwr : r.waitingReverse = true
    · have hc : r.counter = 0 := i3 hwr
      have hwrH : rH.waitingReverse = true := by rw [hHw]; exact hwr
      by_cases hst : b.state = reverse cfg.triggerState
      · obtain ⟨e1, e2⟩ := moveStep_unlock id cfg rH b hwrH hst
        refine ⟨by rw [hr', e1], by rw [hr', e1]; omega, by rw [hr', e1]; simp,
          fun _ => by rw [hr', e1], fun j hj hj2 => ?_⟩
        rw [hr', e1] at hj
        simp at hj hj2
        omega
      · obtain ⟨e1, e2⟩ := moveStep_stay_waiting id cfg rH b hwrH hst
        have ec : (runRt id cfg rt0 (bs ++ [b])).counter = 0 := by
          rw [hr', e1, hHc, hc]
        refine ⟨by rw [ec], by rw [ec]; omega, by rw [ec]; simp,
          fun _ => ec, fun j hj hj2 => ?_⟩
        rw [ec] at hj
        simp at hj hj2
        omega
    · have hwr' : r.waitingReverse = false := by
        simp at hwr
        exact hwr
      have hwrH : rH.waitingReverse = false := by rw [hHw]; exact hwr'
      by_cases hst : b.state = cfg.triggerState
      · by_cases htc : cfg.threshold ≤ rH.counter + 1
        · have htrig : hasTrigger (moveStep id cfg rH b).2 = true := by
            apply (hasTrigger_moveStep_iff id cfg rH b).mpr
            exact ⟨hwrH, by rw [if_pos hst]; exact htc⟩
          obtain ⟨e1, e2, _, _⟩ := moveStep_trigger_post id cfg rH b htrig
          refine ⟨by rw [hr', e1], by rw [hr', e1]; omega, by rw [hr', e1]; simp,
            fun _ => by rw [hr', e1], fun j hj hj2 => ?_⟩
          rw [hr', e1] at hj
          simp at hj hj2
          omega
        · obtain ⟨e1, e2⟩ := moveStep_count_up id cfg rH b hwrH hst htc
          have ec : (runRt id cfg rt0 (bs ++ [b])).counter = r.counter + 1 := by
            rw [hr', e1, hHc]
          have ew : (runRt id cfg rt0 (bs ++ [b])).waitingReverse = false := by
            rw [hr', e2]
          rw [hHc] at htc
          refine ⟨by rw [ec]; omega, by rw [ec]; omega, by rw [ec]; simp; omega,
            fun hcontra => by rw [ew] at hcontra; exact absurd hcontra (by simp),
            fun j hj hj2 => ?_⟩
          rw [ec] at hj
          simp only [List.length_append, List.length_singleton] at hj hj2
          have hcN : (r.counter + 1).toNat = r.counter.toNat + 1 := by omega
          rw [hcN] at hj
          by_cases hji : j < bs.length
          · have hj' : bs.length - r.counter.toNat ≤ j := by omega
            obtain ⟨t1, t2⟩ := i4 j hj' hji
            refine ⟨by rw [hgetD j hji]; exact t1, ?_⟩
            rw [htake j (le_of_lt hji)]
            exact t2
          · have hjl : j = bs.length := by omega
            subst hjl
            refine ⟨by rw [hgetLast]; exact hst, ?_⟩
            rw [htake bs.length (le_refl _), List.take_length, ← hr]
            exact hwr'
      · have hth0 : ¬ cfg.threshold ≤ (0 : Int) := by omega
        obtain ⟨e1, e2⟩ := moveStep_count_reset id cfg rH b hwrH hst hth0
        refine ⟨by rw [hr', e1], by rw [hr', e1]; omega, by rw [hr', e1]; simp,
          fun hcontra => by rw [hr', e1], fun j hj hj2 => ?_⟩
        rw [hr', e1] at hj
        simp at hj hj2
        omega

theorem getD_take_of_lt (l : List MB) (n m : Nat) (h : m < n) :
    (l.take n).getD m mbDefault = l.getD m mbDefault := by
  unfold List.getD
  rw [List.get?_eq_getElem?, List.get?_eq_getElem?, List.getElem?_take_of_lt h]

theorem c1_core (id : String) (cfg : Config) (rt0 : Runtime) (bs : List MB) (i : Nat)
    (hen : cfg.enabled = true) (hth : 1 ≤ cfg.threshold) (hc0 : rt0.counter = 0)
    (hi : i < bs.length)
    (htr : hasTrigger (sigsAt id cfg rt0 bs i) = true) :
    cfg.threshold.toNat ≤ i + 1 ∧
    ∀ j, i + 1 - cfg.threshold.toNat ≤ j → j ≤ i →
      (bs.getD j mbDefault).state = cfg.triggerState ∧
      (preRt id cfg rt0 bs j).waitingReverse = false := by
  obtain ⟨-, hwr, hthc⟩ :=
    (hasTrigger_step_iff id cfg (preRt id cfg rt0 bs i) (bs.getD i mbDefault)).mp htr
  obtain ⟨i0, i1, i2, i3, i4⟩ := minv_holds id cfg hen hth rt0 hc0 (bs.take i)
  have hlen : (bs.take i).length = i := by
    rw [List.length_take]; omega
  have hst : (bs.getD i mbDefault).state = cfg.triggerState := by
    by_contra hne
    rw [if_neg hne] at hthc
    omega
  rw [if_pos hst] at hthc
  have hpre : preRt id cfg rt0 bs i = runRt id cfg rt0 (bs.take i) := rfl
  rw [hpre] at hwr hthc
  have hcnt : (runRt id cfg rt0 (bs.take i)).counter = cfg.threshold - 1 := by
    omega
  rw [hlen] at i2 i4
  constructor
  · omega
  · intro j hj1 hj2
    by_cases hji : j = i
    · subst hji
      exact ⟨hst, hwr⟩
    · have hjlt : j < i := by omega
      have hrange : i - (runRt id cfg rt0 (bs.take i)).counter.toNat ≤ j := by omega
      obtain ⟨t1, t2⟩ := i4 j hrange hjlt
      rw [getD_take_of_lt bs i j hjlt] at t1
      have htt : (bs.take i).take j = bs.take j := by
        rw [List.take_take]
        congr 1
        omega
      rw [htt] at t2
      exact ⟨t1, t2⟩

/-! ## Claim theorems -/

/-- C1: for every enabled machine and every block sequence processed
through `Manager.OnBlock` (starting from a zeroed counter), a TRIGGER for
that machine at step `i` implies the `threshold` most recently processed
blocks ending at `i` all carry the machine's `triggerState`, and the
machine's `waitingReverse` gate was open (false) at each of those
blocks. -/
theorem trigger_requires_streak (m : Manager) (id : String) (bs : List MB) (i : Nat)
    (hwf : m.order.Nodup) (hid : id ∈ m.order)
    (hen : (m.cfgOf id).enabled = true) (hth : 1 ≤ (m.cfgOf id).threshold)
    (hc0 : (m.rtOf id).counter = 0) (hi : i < bs.length)
    (htr : hasTriggerFor id (mSigsAt m bs i) = true) :
    ((m.cfgOf id).threshold).toNat ≤ i + 1 ∧
    ∀ j, i + 1 - ((m.cfgOf id).threshold).toNat ≤ j → j ≤ i →
      (bs.getD j mbDefault).state = (m.cfgOf id).triggerState ∧
      ((mRun m (bs.take j)).rtOf id).waitingReverse = false := by
  rw [hasTriggerFor_mSigsAt m bs i hwf id hid] at htr
  obtain ⟨h1, h2⟩ := c1_core id (m.cfgOf id) (m.rtOf id) bs i hen hth hc0 hi htr
  refine ⟨h1, fun j hj1 hj2 => ?_⟩
  obtain ⟨t1, t2⟩ := h2 j hj1 hj2
  refine ⟨t1, ?_⟩
  rw [mRun_rtOf (bs.take j) m hwf id hid]
  exact t2

theorem trigger_requires_streak_witness :
    (c1mgr.order.Nodup ∧ "m1" ∈ c1mgr.order ∧ (c1mgr.cfgOf "m1").enabled = true ∧
     1 ≤ (c1mgr.cfgOf "m1").threshold ∧ (c1mgr.rtOf "m1").counter = 0 ∧
     2 < c1bs.length ∧ hasTriggerFor "m1" (mSigsAt c1mgr c1bs 2) = true) ∧
    (((c1mgr.cfgOf "m1").threshold).toNat ≤ 2 + 1 ∧
     ∀ j, 2 + 1 - ((c1mgr.cfgOf "m1").threshold).toNat ≤ j → j ≤ 2 →
       (c1bs.getD j mbDefault).state = (c1mgr.cfgOf "m1").triggerState ∧
       ((mRun c1mgr (c1bs.take j)).rtOf "m1").waitingReverse = false) :=
  ⟨⟨by decide, by decide, by decide, by decide, by decide, by decide, by decide⟩,
   trigger_requires_streak c1mgr "m1" c1bs 2 (by decide) (by decide) (by decide)
     (by decide) (by decide) (by decide) (by decide)⟩

/-- C7: whenever `Manager.OnBlock` emits a TRIGGER for a machine, the
machine's runtime immediately after that OnBlock call has `counter = 0`
and `waitingReverse = true`. -/
theorem trigger_resets_counter_gate (m : Manager) (id : String) (b : MB)
    (hwf : m.order.Nodup)
    (htr : hasTriggerFor id (m.onBlock b).2 = true) :
    ((m.onBlock b).1.rtOf id).counter = 0 ∧
    ((m.onBlock b).1.rtOf id).waitingReverse = true := by
  have hid : id ∈ m.order := by
    by_contra hno
    rw [hasTriggerFor, onBlock_sigsFor m b hwf id, if_neg hno] at htr
    simp [hasTrigger] at htr
  rw [hasTriggerFor, onBlock_sigsFor m b hwf id, if_pos hid] at htr
  have hpost := step_trigger_post id (m.cfgOf id) (m.rtOf id) b htr
  rw [onBlock_rtOf m b hwf id hid]
  exact ⟨hpost.1, hpost.2.1⟩

theorem trigger_resets_counter_gate_witness :
    ((c3run1.1).order.Nodup ∧ hasTriggerFor "m1" c3run2.2 = true) ∧
    ((c3run2.1.rtOf "m1").counter = 0 ∧ (c3run2.1.rtOf "m1").waitingReverse = true) :=
  ⟨⟨by decide, by decide⟩,
   trigger_resets_counter_gate (c3run1.1) "m1" (mkMB Result.ON 49) (by decide) (by decide)⟩

/-- C9: a machine whose config is disabled is skipped entirely by
`Manager.OnBlock`: its runtime (counter, gate, HIT pending state and
countdown, recorded trigger base) is byte-for-byte unchanged and no
signal is emitted for it. -/
theorem disabled_machine_frame (m : Manager) (id : String) (cfg : Config) (rt : Runtime)
    (b : MB) (hwf : m.order.Nodup) (hcfg : m.cfgs id = some cfg)
    (hdis : cfg.enabled = false) (hrt : m.rts id = some rt) :
    (m.onBlock b).1.rts id = some rt ∧
    sigsFor id (m.onBlock b).2 = [] := by
  have hcfgOf : m.cfgOf id = cfg := by simp [Manager.cfgOf, hcfg]
  have hrtOf : m.rtOf id = rt := by simp [Manager.rtOf, hrt]
  have hstep : stepMachine id (m.cfgOf id) (m.rtOf id) b = (rt, []) := by
    rw [hcfgOf, hrtOf]
    exact stepMachine_disabled id cfg rt b hdis
  constructor
  · rw [onBlock_rts m b hwf id]
    by_cases hid : id ∈ m.order
    · rw [if_pos hid, hstep]
    · rw [if_neg hid]
      exact hrt
  · rw [onBlock_sigsFor m b hwf id]
    by_cases hid : id ∈ m.order
    · rw [if_pos hid, hstep]
    · rw [if_neg hid]

theorem disabled_machine_frame_witness :
    (c9mgr.order.Nodup ∧ c9mgr.cfgs "m1" = some { c3cfg with enabled := false } ∧
     ({ c3cfg with enabled := false } : Config).enabled = false ∧
     c9mgr.rts "m1" = some c9rt) ∧
    ((c9mgr.onBlock (mkMB Result.ON 50)).1.rts "m1" = some c9rt ∧
     sigsFor "m1" (c9mgr.onBlock (mkMB Result.ON 50)).2 = []) :=
  ⟨⟨by decide, by decide, by decide, by decide⟩,
   disabled_machine_frame c9mgr "m1" { c3cfg with enabled := false } c9rt
     (mkMB Result.ON 50) (by decide) (by decide) (by decide) (by decide)⟩

theorem hitStep_decrement (id : String) (cfg : Config) (rt : Runtime) (b : MB)
    (he : cfg.hitEnabled = true) (hp : rt.hitPending = true)
    (hcd : ¬ rt.hitCountdown - 1 ≤ 0) :
    hitStep id cfg rt b = ({ rt with hitCountdown := rt.hitCountdown - 1 }, []) := by
  simp [hitStep, he, hp, hcd]

theorem hitStep_eval_fields (id : String) (cfg : Config) (rt : Runtime) (b : MB)
    (he : cfg.hitEnabled = true) (hp : rt.hitPending = true)
    (hcd : rt.hitCountdown - 1 ≤ 0) :
    (hitStep id cfg rt b).1.hitPending = false ∧
    (hitStep id cfg rt b).1.hitCountdown = 0 ∧
    (hitStep id cfg rt b).1.counter = rt.counter ∧
    (hitStep id cfg rt b).1.waitingReverse = rt.waitingReverse := by
  by_cases h3 : b.state = cfg.hitExpect <;> simp [hitStep, he, hp, hcd, h3]

theorem hitStep_inactive (id : String) (cfg : Config) (rt : Runtime) (b : MB)
    (h : ¬ (cfg.hitEnabled && rt.hitPending) = true) :
    hitStep id cfg rt b = (rt, []) := by
  simp [hitStep, h]

theorem step_countdown (id : String) (cfg : Config) (rt : Runtime) (b : MB)
    (hen : cfg.enabled = true) (hhe : cfg.hitEnabled = true)
    (hp : rt.hitPending = true) (hcd : 2 ≤ rt.hitCountdown)
    (hnt : hasTrigger (stepMachine id cfg rt b).2 = false) :
    (stepMachine id cfg rt b).1.hitPending = true ∧
    (stepMachine id cfg rt b).1.hitCountdown = rt.hitCountdown - 1 ∧
    hasHit (stepMachine id cfg rt b).2 = false := by
  have hcd' : ¬ rt.hitCountdown - 1 ≤ 0 := by omega
  have hH := hitStep_decrement id cfg rt b hhe hp hcd'
  rw [stepMachine_enabled id cfg rt b hen] at hnt ⊢
  rw [hH] at hnt ⊢
  simp only [hasTrigger_append] at hnt
  have hmv : hasTrigger (moveStep id cfg { rt with hitCountdown := rt.hitCountdown - 1 } b).2
      = false := by
    rw [show hasTrigger ([] : List Signal) = false from rfl, Bool.false_or] at hnt
    exact hnt
  obtain ⟨f1, f2⟩ :=
    moveStep_no_trigger_post id cfg { rt with hitCountdown := rt.hitCountdown - 1 } b hmv
  refine ⟨?_, ?_, ?_⟩
  · rw [f1]
    exact hp
  · rw [f2]
  · rw [hasHit_append, moveStep_no_hit]
    simp [hasHit]

theorem step_eval (id : String) (cfg : Config) (rt : Runtime) (b : MB)
    (hen : cfg.enabled = true) (hhe : cfg.hitEnabled = true)
    (hp : rt.hitPending = true) (hcd : rt.hitCountdown ≤ 1)
    (hnt : hasTrigger (stepMachine id cfg rt b).2 = false) :
    (stepMachine id cfg rt b).1.hitPending = false := by
  have hcd' : rt.hitCountdown - 1 ≤ 0 := by omega
  obtain ⟨f1, f2, -, -⟩ := hitStep_eval_fields id cfg rt b hhe hp hcd'
  rw [stepMachine_enabled id cfg rt b hen] at hnt ⊢
  simp only [hasTrigger_append] at hnt
  have hmv : hasTrigger (moveStep id cfg (hitStep id cfg rt b).1 b).2 = false := by
    rw [hitStep_no_trigger, Bool.false_or] at hnt
    exact hnt
  obtain ⟨g1, -⟩ := moveStep_no_trigger_post id cfg (hitStep id cfg rt b).1 b hmv
  rw [g1, f1]

theorem step_idle (id : String) (cfg : Config) (rt : Runtime) (b : MB)
    (hen : cfg.enabled = true) (hp : rt.hitPending = false)
    (hnt : hasTrigger (stepMachine id cfg rt b).2 = false) :
    (stepMachine id cfg rt b).1.hitPending = false ∧
    hasHit (stepMachine id cfg rt b).2 = false := by
  have hH : hitStep id cfg rt b = (rt, []) := by
    apply hitStep_inactive
    simp [hp]
  rw [stepMachine_enabled id cfg rt b hen] at hnt ⊢
  rw [hH] at hnt ⊢
  simp only [List.nil_append] at hnt ⊢
  obtain ⟨g1, -⟩ := moveStep_no_trigger_post id cfg rt b hnt
  refine ⟨by rw [g1, hp], ?_⟩
  exact moveStep_no_hit id cfg rt b

theorem preRt_succ (id : String) (cfg : Config) (rt0 : Runtime) (bs : List MB) (j : Nat)
    (hj : j < bs.length) :
    preRt id cfg rt0 bs (j + 1) =
      (stepMachine id cfg (preRt id cfg rt0 bs j) (bs.getD j mbDefault)).1 := by
  unfold preRt
  have htk : bs.take (j + 1) = bs.take j ++ [bs.getD j mbDefault] := by
    have hg : bs.getD j mbDefault = bs[j] := List.getD_eq_getElem bs mbDefault hj
    rw [List.take_succ, List.getElem?_eq_getElem hj, hg]
    simp
  rw [htk, runRt_append]

theorem c2_pending_cd (id : String) (cfg : Config) (rt0 : Runtime) (bs : List MB) (i : Nat)
    (hen : cfg.enabled = true) (hhe : cfg.hitEnabled = true) (hoff : 1 ≤ cfg.hitOffset)
    (hi : i < bs.length)
    (htr : hasTrigger (sigsAt id cfg rt0 bs i) = true) :
    ∀ d l, l = i + 1 + d → l ≤ bs.length →
      (∀ x, i < x → x < l → hasTrigger (sigsAt id cfg rt0 bs x) = false) →
      (((l : Int) ≤ (i : Int) + cfg.hitOffset →
         (preRt id cfg rt0 bs l).hitPending = true ∧
         (preRt id cfg rt0 bs l).hitCountdown = (i : Int) + 1 + cfg.hitOffset - (l : Int)) ∧
       ((i : Int) + cfg.hitOffset < (l : Int) →
         (preRt id cfg rt0 bs l).hitPending = false)) := by
  intro d
  induction d with
  | zero =>
    intro l hl hlen hno
    subst hl
    have hstep : preRt id cfg rt0 bs (i + 1) =
        (stepMachine id cfg (preRt id cfg rt0 bs i) (bs.getD i mbDefault)).1 :=
      preRt_succ id cfg rt0 bs i hi
    have hpost := step_trigger_post id cfg (preRt id cfg rt0 bs i) (bs.getD i mbDefault) htr
    obtain ⟨hp, hcd⟩ := hpost.2.2 hhe
    have hcl : (if cfg.hitOffset < 1 then 1 else cfg.hitOffset) = cfg.hitOffset := by
      rw [if_neg (by omega)]
    constructor
    · intro hle
      rw [show i + 1 + 0 = i + 1 by omega, hstep]
      refine ⟨hp, ?_⟩
      rw [hcd, hcl]
      push_cast
      ring
    · intro hgt
      exact absurd hgt (by push_cast; omega)
  | succ d ih =>
    intro l hl hlen hno
    subst hl
    have heq : i + 1 + (d + 1) = i + 1 + d + 1 := by omega
    have hl0len : i + 1 + d < bs.length := by omega
    have hih := ih (i + 1 + d) rfl (by omega) (fun x hx1 hx2 => hno x hx1 (by omega))
    have hnol0 : hasTrigger (sigsAt id cfg rt0 bs (i + 1 + d)) = false :=
      hno (i + 1 + d) (by omega) (by omega)
    have hstep : preRt id cfg rt0 bs (i + 1 + d + 1) =
        (stepMachine id cfg (preRt id cfg rt0 bs (i + 1 + d))
          (bs.getD (i + 1 + d) mbDefault)).1 :=
      preRt_succ id cfg rt0 bs (i + 1 + d) hl0len
    rw [heq]
    constructor
    · intro hle
      obtain ⟨hp, hcd⟩ := hih.1 (by push_cast at hle ⊢; omega)
      have hcd2 : 2 ≤ (preRt id cfg rt0 bs (i + 1 + d)).hitCountdown := by
        rw [hcd]
        push_cast at hle ⊢
        omega
      obtain ⟨s1, s2, -⟩ := step_countdown id cfg (preRt id cfg rt0 bs (i + 1 + d))
        (bs.getD (i + 1 + d) mbDefault) hen hhe hp hcd2 hnol0
      rw [hstep]
      refine ⟨s1, ?_⟩
      rw [s2, hcd]
      push_cast
      ring
    · intro hgt
      by_cases hc2 : ((i + 1 + d : Nat) : Int) ≤ (i : Int) + cfg.hitOffset
      · obtain ⟨hp, hcd⟩ := hih.1 hc2
        have hcd1 : (preRt id cfg rt0 bs (i + 1 + d)).hitCountdown ≤ 1 := by
          rw [hcd]
          push_cast at hc2 ⊢
          omega
        have hev := step_eval id cfg (preRt id cfg rt0 bs (i + 1 + d))
          (bs.getD (i + 1 + d) mbDefault) hen hhe hp hcd1 hnol0
        rw [hstep]
        exact hev
      · have hp0 := hih.2 (by push_cast at hc2 ⊢; omega)
        obtain ⟨s1, -⟩ := step_idle id cfg (preRt id cfg rt0 bs (i + 1 + d))
          (bs.getD (i + 1 + d) mbDefault) hen hp0 hnol0
        rw [hstep]
        exact s1

theorem c2_core (id : String) (cfg : Config) (rt0 : Runtime) (bs : List MB) (i j : Nat)
    (hen : cfg.enabled = true) (hhe : cfg.hitEnabled = true) (hoff : 1 ≤ cfg.hitOffset)
    (hi : i < bs.length)
    (htr : hasTrigger (sigsAt id cfg rt0 bs i) = true)
    (hij : i < j) (hj : j < bs.length)
    (hno : ∀ x, i < x → x < j → hasTrigger (sigsAt id cfg rt0 bs x) = false) :
    (hasHit (sigsAt id cfg rt0 bs j) = true ↔
      ((j : Int) = (i : Int) + cfg.hitOffset ∧
       (bs.getD j mbDefault).state = cfg.hitExpect)) := by
  have hwin := c2_pending_cd id cfg rt0 bs i hen hhe hoff hi htr (j - (i + 1)) j
    (by omega) (by omega) hno
  have hiff := hasHit_step_iff id cfg (preRt id cfg rt0 bs j) (bs.getD j mbDefault)
  by_cases hcase : ((j : Nat) : Int) ≤ (i : Int) + cfg.hitOffset
  · obtain ⟨hp, hcd⟩ := hwin.1 hcase
    by_cases hexact : ((j : Nat) : Int) = (i : Int) + cfg.hitOffset
    · have hcd1 : (preRt id cfg rt0 bs j).hitCountdown ≤ 1 := by
        rw [hcd]
        omega
      constructor
      · intro hh
        obtain ⟨-, -, -, -, hst⟩ := hiff.mp hh
        exact ⟨hexact, hst⟩
      · rintro ⟨-, hst⟩
        exact hiff.mpr ⟨hen, hhe, hp, hcd1, hst⟩
    · have hlt : ((j : Nat) : Int) < (i : Int) + cfg.hitOffset := by omega
      have hcd2 : ¬ (preRt id cfg rt0 bs j).hitCountdown ≤ 1 := by
        rw [hcd]
        omega
      constructor
      · intro hh
        obtain ⟨-, -, -, hc, -⟩ := hiff.mp hh
        exact absurd hc hcd2
      · rintro ⟨he, -⟩
        exact absurd he hexact
  · have hp0 := hwin.2 (by omega)
    constructor
    · intro hh
      obtain ⟨-, -, hp, -, -⟩ := hiff.mp hh
      rw [hp0] at hp
      exact absurd hp (by simp)
    · rintro ⟨he, -⟩
      omega

/-- C2 (amended): for a TRIGGER at step `i` of a machine with
`hitEnabled` true and `hitOffset = k ≥ 1`, provided the machine emits no
further TRIGGER strictly between the trigger block and block `j` (a new
TRIGGER re-arms the countdown and supersedes the pending HIT), a HIT is
emitted at step `j` iff `j` is exactly the k-th block processed after `i`
and the state there equals `hitExpect` — hence at most one HIT per
TRIGGER. -/
theorem hit_offset_window (m : Manager) (id : String) (bs : List MB) (i j : Nat)
    (hwf : m.order.Nodup) (hid : id ∈ m.order)
    (hen : (m.cfgOf id).enabled = true) (hhe : (m.cfgOf id).hitEnabled = true)
    (hoff : 1 ≤ (m.cfgOf id).hitOffset)
    (hi : i < bs.length)
    (htr : hasTriggerFor id (mSigsAt m bs i) = true)
    (hij : i < j) (hj : j < bs.length)
    (hno : ∀ x, i < x → x < j → hasTriggerFor id (mSigsAt m bs x) = false) :
    (hasHitFor id (mSigsAt m bs j) = true ↔
      ((j : Int) = (i : Int) + (m.cfgOf id).hitOffset ∧
       (bs.getD j mbDefault).state = (m.cfgOf id).hitExpect)) := by
  rw [hasTriggerFor_mSigsAt m bs i hwf id hid] at htr
  rw [hasHitFor_mSigsAt m bs j hwf id hid]
  have hno' : ∀ x, i < x → x < j →
      hasTrigger (sigsAt id (m.cfgOf id) (m.rtOf id) bs x) = false := by
    intro x h1 h2
    rw [← hasTriggerFor_mSigsAt m bs x hwf id hid]
    exact hno x h1 h2
  exact c2_core id (m.cfgOf id) (m.rtOf id) bs i j hen hhe hoff hi htr hij hj hno'

theorem hit_offset_window_witness :
    (c2mgrW.order.Nodup ∧ "m1" ∈ c2mgrW.order ∧ (c2mgrW.cfgOf "m1").enabled = true ∧
     (c2mgrW.cfgOf "m1").hitEnabled = true ∧ 1 ≤ (c2mgrW.cfgOf "m1").hitOffset ∧
     1 < c2bsW.length ∧ hasTriggerFor "m1" (mSigsAt c2mgrW c2bsW 1) = true ∧
     3 < c2bsW.length ∧
     (∀ x, 1 < x → x < 3 → hasTriggerFor "m1" (mSigsAt c2mgrW c2bsW x) = false)) ∧
    (hasHitFor "m1" (mSigsAt c2mgrW c2bsW 3) = true ↔
      (((3 : Nat) : Int) = ((1 : Nat) : Int) + (c2mgrW.cfgOf "m1").hitOffset ∧
       (c2bsW.getD 3 mbDefault).state = (c2mgrW.cfgOf "m1").hitExpect)) :=
  ⟨⟨by decide, by decide, by decide, by decide, by decide, by decide, by decide, by decide,
    fun x h1 h2 => by
      have hx : x = 2 := by omega
      subst hx
      decide⟩,
   hit_offset_window c2mgrW "m1" c2bsW 1 3 (by decide) (by decide) (by decide) (by decide)
     (by decide) (by decide) (by decide) (by decide) (by decide)
     (fun x h1 h2 => by
       have hx : x = 2 := by omega
       subst hx
       decide)⟩

/-- C2 counterexample to the claim as stated: machine with threshold 1,
`hitEnabled`, `hitOffset = 4`; it TRIGGERs at step 1, TRIGGERs again at
step 3 (re-arming the countdown), and at step 5 — the 4th block processed
after the first TRIGGER — the state equals `hitExpect` yet no HIT is
emitted, refuting the claimed "if and only if". -/
theorem hit_offset_window_cex :
    hasTriggerFor "m1" (mSigsAt c2mgr c2bs 1) = true ∧
    (c2mgr.cfgOf "m1").hitEnabled = true ∧
    (c2mgr.cfgOf "m1").hitOffset = 4 ∧
    (c2bs.getD 5 mbDefault).state = (c2mgr.cfgOf "m1").hitExpect ∧
    hasHitFor "m1" (mSigsAt c2mgr c2bs 5) = false := by
  decide

/-- C3 (amended): the HIT countdown gate re-reads the machine's current
`hitEnabled` on every block (part_000 line 411), so while `hitEnabled` is
false no HIT is ever emitted for the machine, and — unless a TRIGGER at
that block rewrites them — `hitPending` and `hitCountdown` are left
untouched (the pending HIT is frozen, not evaluated). -/
theorem hit_eval_reads_current_hitEnabled (m : Manager) (id : String) (cfg : Config)
    (rt : Runtime) (b : MB) (hwf : m.order.Nodup) (hcfg : m.cfgs id = some cfg)
    (hen : cfg.enabled = true) (hhe : cfg.hitEnabled = false) (hrt : m.rts id = some rt) :
    hasHitFor id (m.onBlock b).2 = false ∧
    (hasTriggerFor id (m.onBlock b).2 = false →
      ((m.onBlock b).1.rtOf id).hitPending = rt.hitPending ∧
      ((m.onBlock b).1.rtOf id).hitCountdown = rt.hitCountdown) := by
  have hcfgOf : m.cfgOf id = cfg := by simp [Manager.cfgOf, hcfg]
  have hrtOf : m.rtOf id = rt := by simp [Manager.rtOf, hrt]
  by_cases hid : id ∈ m.order
  · constructor
    · rw [hasHitFor, onBlock_sigsFor m b hwf id, if_pos hid]
      cases hh : hasHit (stepMachine id (m.cfgOf id) (m.rtOf id) b).2 with
      | false => rfl
      | true =>
        obtain ⟨-, hhe2, -, -, -⟩ := (hasHit_step_iff id (m.cfgOf id) (m.rtOf id) b).mp hh
        rw [hcfgOf, hhe] at hhe2
        exact absurd hhe2 (by simp)
    · intro hnt
      rw [hasTriggerFor, onBlock_sigsFor m b hwf id, if_pos hid] at hnt
      rw [onBlock_rtOf m b hwf id hid]
      have henOf : (m.cfgOf id).enabled = true := by rw [hcfgOf]; exact hen
      have hH : hitStep id (m.cfgOf id) (m.rtOf id) b = (m.rtOf id, []) := by
        apply hitStep_inactive
        rw [hcfgOf]
        simp [hhe]
      rw [stepMachine_enabled id (m.cfgOf id) (m.rtOf id) b henOf] at hnt ⊢
      rw [hH] at hnt ⊢
      simp only [List.nil_append] at hnt ⊢
      obtain ⟨g1, g2⟩ := moveStep_no_trigger_post id (m.cfgOf id) (m.rtOf id) b hnt
      rw [g1, g2, hrtOf]
      exact ⟨rfl, rfl⟩
  · constructor
    · rw [hasHitFor, onBlock_sigsFor m b hwf id, if_neg hid]
      rfl
    · intro _
      rw [Manager.rtOf, onBlock_rts m b hwf id, if_neg hid, hrt]
      exact ⟨rfl, rfl⟩

theorem hit_eval_reads_current_hitEnabled_witness :
    (c3mgr2.order.Nodup ∧ c3mgr2.cfgs "m1" = some { c3cfg with hitEnabled := false } ∧
     ({ c3cfg with hitEnabled := false } : Config).enabled = true ∧
     ({ c3cfg with hitEnabled := false } : Config).hitEnabled = false ∧
     c3mgr2.rts "m1" = some c9rt) ∧
    (hasHitFor "m1" c3run3.2 = false ∧
     (hasTriggerFor "m1" c3run3.2 = false →
       (c3run3.1.rtOf "m1").hitPending = c9rt.hitPending ∧
       (c3run3.1.rtOf "m1").hitCountdown = c9rt.hitCountdown)) :=
  ⟨⟨by decide, by decide, by decide, by decide, by decide⟩,
   hit_eval_reads_current_hitEnabled c3mgr2 "m1" { c3cfg with hitEnabled := false } c9rt
     (mkMB Result.ON 50) (by decide) (by decide) (by decide) (by decide) (by decide)⟩

/-- C3 counterexample to the claim as stated: the machine TRIGGERs with
`hitEnabled = true` and `hitOffset = 1`; its `hitEnabled` is then turned
off by `Upsert` before the evaluation block, whose state equals
`hitExpect`.  The claim says the snapshot forces the HIT evaluation to
happen (and the HIT to be emitted); the code emits nothing and leaves
the countdown frozen (`hitPending` still true). -/
theorem hit_eval_snapshot_cex :
    hasTriggerFor "m1" c3run2.2 = true ∧
    c3cfg.hitEnabled = true ∧
    c3cfg.hitOffset = 1 ∧
    c3mgr2.cfgs "m1" = some { c3cfg with hitEnabled := false } ∧
    (mkMB Result.ON 50).state = c3cfg.hitExpect ∧
    c3run3.2 = [] ∧
    (c3run3.1.rtOf "m1").hitPending = true := by
  decide

/-- C4: after `Core.SwitchJudgeRule` (part_004), and before any further
block is processed, every machine runtime is the reset runtime
(`counter = 0`, `waitingReverse = true`, no pending HIT), the dedup ring
holds no blocks and no keys, and the gap-detection height is zeroed. -/
theorem switch_rule_resets_all (c : Core2) (rule : String) :
    (∀ id rt, (c.switchJudgeRule rule).manager.rts id = some rt →
      rt.counter = 0 ∧ rt.waitingReverse = true ∧ rt.hitPending = false ∧
      rt.hitCountdown = 0) ∧
    (c.switchJudgeRule rule).ring.items = [] ∧
    (c.switchJudgeRule rule).ring.index = [] ∧
    (c.switchJudgeRule rule).lastHeightNum = 0 := by
  refine ⟨?_, rfl, rfl, rfl⟩
  intro id rt hrt
  have hrts : (c.switchJudgeRule rule).manager.rts id
      = (c.manager.rts id).map (fun _ => resetRuntime) := rfl
  rw [hrts] at hrt
  cases h : c.manager.rts id with
  | none =>
    rw [h] at hrt
    exact absurd hrt (by simp)
  | some rt0 =>
    rw [h] at hrt
    have hr : resetRuntime = rt := Option.some.inj hrt
    rw [← hr]
    exact ⟨rfl, rfl, rfl, rfl⟩

theorem switch_rule_resets_all_witness :
    ((c4core.switchJudgeRule "big").manager.rts "m1" = some resetRuntime ∧
     (resetRuntime.counter = 0 ∧ resetRuntime.waitingReverse = true ∧
      resetRuntime.hitPending = false ∧ resetRuntime.hitCountdown = 0)) ∧
    ((c4core.switchJudgeRule "big").ring.items = [] ∧
     (c4core.switchJudgeRule "big").ring.index = [] ∧
     (c4core.switchJudgeRule "big").lastHeightNum = 0) :=
  ⟨⟨by decide, (switch_rule_resets_all c4core "big").1 "m1" resetRuntime (by decide)⟩,
   (switch_rule_resets_all c4core "big").2⟩

theorem push_mem (r : RingBuffer) (b : Block) (hk : makeKey b ∈ r.index) :
    r.push b = (r, false) := by
  simp [RingBuffer.push, hk]

theorem push_new_no_evict (r : RingBuffer) (b : Block) (hk : makeKey b ∉ r.index)
    (hcap : ¬ r.size ≤ r.items.length) :
    r.push b = ({ r with items := r.items ++ [b], index := makeKey b :: r.index }, true) := by
  simp [RingBuffer.push, hk, hcap]

theorem push_new_evict (r : RingBuffer) (b : Block) (old : Block) (rest : List Block)
    (hk : makeKey b ∉ r.index) (hcap : r.size ≤ r.items.length)
    (hitems : r.items = old :: rest) :
    r.push b = ({ r with items := rest ++ [b],
                         index := makeKey b :: r.index.erase (makeKey old) }, true) := by
  have hcap2 : r.size ≤ rest.length + 1 := by
    rw [hitems] at hcap
    simpa using hcap
  simp [RingBuffer.push, hk, hcap, hitems, hcap2]

theorem rinv_push (n : Nat) (hn : 1 ≤ n) (r : RingBuffer) (hr : RInv n r) (b : Block) :
    RInv n (r.push b).1 := by
  obtain ⟨hs, hlen, hnd, hidx, hmem⟩ := hr
  by_cases hk : makeKey b ∈ r.index
  · rw [push_mem r b hk]
    exact ⟨hs, hlen, hnd, hidx, hmem⟩
  · have hknot : makeKey b ∉ r.items.map makeKey := fun h => hk ((hmem _).mpr h)
    by_cases hcap : r.size ≤ r.items.length
    · cases hitems : r.items with
      | nil =>
        rw [hitems] at hcap
        simp at hcap
        omega
      | cons old rest =>
        rw [push_new_evict r b old rest hk hcap hitems]
        have hkeys : r.items.map makeKey = makeKey old :: rest.map makeKey := by
          rw [hitems]
          simp
        rw [hkeys] at hnd hknot hmem
        obtain ⟨hold, hrest⟩ := List.nodup_cons.mp hnd
        refine ⟨hs, ?_, ?_, ?_, ?_⟩
        · have : r.items.length ≤ n := hlen
          rw [hitems] at this
          simp at this ⊢
          omega
        · simp only [List.map_append, List.map_cons, List.map_nil]
          apply List.Nodup.append hrest (List.nodup_singleton _)
          intro x hx1 hx2
          simp at hx2
          subst hx2
          exact hknot (List.mem_cons_of_mem _ hx1)
        · apply List.Nodup.cons
          · intro hin
            exact hk (List.mem_of_mem_erase hin)
          · exact List.Nodup.erase _ hidx
        · intro k
          constructor
          · intro hin
            rcases List.mem_cons.mp hin with he | he
            · subst he
              simp
            · have hne : k ≠ makeKey old := ((List.Nodup.mem_erase_iff hidx).mp he).1
              have hk2 : k ∈ r.index := ((List.Nodup.mem_erase_iff hidx).mp he).2
              have := (hmem k).mp hk2
              rcases List.mem_cons.mp this with h1 | h1
              · exact absurd h1 hne
              · simp [h1]
          · intro hin
            simp only [List.map_append, List.map_cons, List.map_nil, List.mem_append,
              List.mem_singleton] at hin
            rcases hin with h1 | h1
            · apply List.mem_cons_of_mem
              apply (List.Nodup.mem_erase_iff hidx).mpr
              refine ⟨?_, (hmem k).mpr (List.mem_cons_of_mem _ h1)⟩
              intro he
              subst he
              exact hold h1
            · subst h1
              exact List.mem_cons_self _ _
    · rw [push_new_no_evict r b hk hcap]
      refine ⟨hs, ?_, ?_, List.Nodup.cons hk hidx, ?_⟩
      · simp
        omega
      · simp only [List.map_append, List.map_cons, List.map_nil]
        apply List.Nodup.append hnd (List.nodup_singleton _)
        intro x hx1 hx2
        simp at hx2
        subst hx2
        exact hknot hx1
      · intro k
        simp only [List.mem_cons, List.map_append, List.map_cons, List.map_nil,
          List.mem_append, List.mem_singleton, hmem k]
        tauto

theorem rinv_pushAll (n : Nat) (hn : 1 ≤ n) (bs : List Block) :
    RInv n (pushAll (newRingBuffer n) bs) := by
  have hstep : ∀ (l : List Block) (r : RingBuffer), RInv n r → RInv n (pushAll r l) := by
    intro l
    induction l with
    | nil => intro r h; exact h
    | cons b l ih =>
      intro r h
      exact ih _ (rinv_push n hn r h b)
  refine hstep bs _ ⟨rfl, ?_, ?_, ?_, ?_⟩ <;> simp [newRingBuffer]

/-- C5: along any sequence of `RingBuffer.Push` calls starting from
`NewRingBuffer n` (n ≥ 1): a block whose `height:hash` key is already
stored is rejected with `false` and the ring unchanged; a fresh block is
appended with `true`, evicting the oldest entry when the ring is at
capacity; and the stored keys are always pairwise distinct with at most
`n` entries. -/
theorem ring_push_dedup_bounded (n : Nat) (hn : 1 ≤ n) (bs : List Block) (b : Block) :
    (makeKey b ∈ (pushAll (newRingBuffer n) bs).items.map makeKey →
      (pushAll (newRingBuffer n) bs).push b = (pushAll (newRingBuffer n) bs, false)) ∧
    (makeKey b ∉ (pushAll (newRingBuffer n) bs).items.map makeKey →
      ((pushAll (newRingBuffer n) bs).push b).2 = true ∧
      ((pushAll (newRingBuffer n) bs).push b).1.items =
        (if n ≤ (pushAll (newRingBuffer n) bs).items.length then
          (pushAll (newRingBuffer n) bs).items.drop 1
         else (pushAll (newRingBuffer n) bs).items) ++ [b]) ∧
    ((pushAll (newRingBuffer n) bs).items.map makeKey).Nodup ∧
    (pushAll (newRingBuffer n) bs).items.length ≤ n := by
  obtain ⟨hs, hlen, hnd, hidx, hmem⟩ := rinv_pushAll n hn bs
  set r := pushAll (newRingBuffer n) bs with hrdef
  refine ⟨?_, ?_, hnd, hlen⟩
  · intro hin
    exact push_mem r b ((hmem _).mpr hin)
  · intro hnin
    have hk : makeKey b ∉ r.index := fun h => hnin ((hmem _).mp h)
    by_cases hcap : r.size ≤ r.items.length
    · cases hitems : r.items with
      | nil =>
        rw [hitems] at hcap
        simp at hcap
        omega
      | cons old rest =>
        rw [push_new_evict r b old rest hk hcap hitems]
        have hcap3 : n ≤ (old :: rest).length := by
          rw [← hitems, ← hs]
          exact hcap
        refine ⟨rfl, ?_⟩
        rw [if_pos hcap3]
        rfl
    · rw [push_new_no_evict r b hk hcap]
      rw [hs] at hcap
      refine ⟨rfl, ?_⟩
      rw [if_neg hcap]

theorem ring_push_dedup_bounded_witness :
    (1 ≤ 2 ∧ makeKey c5b3 ∉ (pushAll (newRingBuffer 2) [c5b1, c5b2]).items.map makeKey) ∧
    ((makeKey c5b3 ∈ (pushAll (newRingBuffer 2) [c5b1, c5b2]).items.map makeKey →
      (pushAll (newRingBuffer 2) [c5b1, c5b2]).push c5b3 =
        (pushAll (newRingBuffer 2) [c5b1, c5b2], false)) ∧
     (makeKey c5b3 ∉ (pushAll (newRingBuffer 2) [c5b1, c5b2]).items.map makeKey →
      ((pushAll (newRingBuffer 2) [c5b1, c5b2]).push c5b3).2 = true ∧
      ((pushAll (newRingBuffer 2) [c5b1, c5b2]).push c5b3).1.items =
        (if 2 ≤ (pushAll (newRingBuffer 2) [c5b1, c5b2]).items.length then
          (pushAll (newRingBuffer 2) [c5b1, c5b2]).items.drop 1
         else (pushAll (newRingBuffer 2) [c5b1, c5b2]).items) ++ [c5b3]) ∧
     ((pushAll (newRingBuffer 2) [c5b1, c5b2]).items.map makeKey).Nodup ∧
     (pushAll (newRingBuffer 2) [c5b1, c5b2]).items.length ≤ 2) :=
  ⟨⟨by decide, by decide⟩,
   ring_push_dedup_bounded 2 (by decide) [c5b1, c5b2] c5b3⟩

theorem goIsLetter_of_hex (c : Nat) (h : isHexByte c = true) :
    goIsLetter c = decide (97 ≤ c ∧ c ≤ 102) := by
  have h2 : (48 ≤ c ∧ c ≤ 57) ∨ (97 ≤ c ∧ c ≤ 102) := by
    have := h
    unfold isHexByte goIsDigit at this
    simpa using this
  unfold goIsLetter
  rw [decide_eq_decide]
  constructor
  · intro hl
    omega
  · intro hr
    omega

/-- C6 (amended): on hash strings with no surrounding whitespace whose
last two bytes are lowercase hex characters `[0-9a-f]` — the only case a
real block hash exercises — `decideLucky` agrees exactly with the spec's
LUCKY table (`specLucky`).  Outside that range the claim fails:
`decideLucky` treats any Unicode letter as a letter (see the
counterexample), rather than returning OFF for characters outside
`[0-9a-f]`. -/
theorem lucky_matches_spec_on_hex (h : List Nat) (ht : trimSpace h = h)
    (ha : isHexByte (h.getD (h.length - 2) 0) = true)
    (hb : isHexByte (h.getD (h.length - 1) 0) = true) :
    decideLucky h = specLucky h := by
  unfold decideLucky specLucky
  rw [ht]
  by_cases hlen : h.length < 2
  · simp [hlen]
  · simp only [hlen, if_false]
    rw [goIsLetter_of_hex _ ha, goIsLetter_of_hex _ hb]

theorem lucky_matches_spec_on_hex_witness :
    (trimSpace [51, 97] = [51, 97] ∧
     isHexByte (([51, 97] : List Nat).getD (([51, 97] : List Nat).length - 2) 0) = true ∧
     isHexByte (([51, 97] : List Nat).getD (([51, 97] : List Nat).length - 1) 0) = true) ∧
    decideLucky [51, 97] = specLucky [51, 97] :=
  ⟨⟨by decide, by decide, by decide⟩,
   lucky_matches_spec_on_hex [51, 97] (by decide) (by decide) (by decide)⟩

/-- C6 counterexample to the claim as stated: the hash ending `"g1"`
(bytes 103, 49) has a character outside `[0-9a-f]`, so the claim says
OFF, but `decideLucky` returns ON because `unicode.IsLetter` accepts
`g`. -/
theorem lucky_nonhex_letter_cex :
    decideLucky [103, 49] = Result.ON ∧ specLucky [103, 49] = Result.OFF := by
  decide

/-- C8: for every admitted block (non-empty hash and height, accepted by
the dedup ring), `Core.OnBlock` of the part_003 revision increments
`majorIncidents` exactly when the previously recorded height `p`
satisfies `p > 0` and the parsed height `h` satisfies `h > p + 1`, and in
every case continues the pipeline: it updates
`lastHeight`/`lastHash`/`lastTime`, classifies the hash, runs the machine
engine on the result, and returns the engine's signals. -/
theorem gap_increment_and_continue {σ τ : Type} (engine : Int → Result → σ → σ × List τ)
    (c : Core3 σ) (b : Block) (hh : ¬ b.hash = []) (hht : ¬ b.height = [])
    (hadm : (c.ring.push b).2 = true) :
    (Core3.onBlock engine c (some b)).1.majorIncidents =
      c.majorIncidents +
        (if c.lastHeight > 0 ∧ mustParseInt64 b.height > c.lastHeight + 1 then 1 else 0) ∧
    (Core3.onBlock engine c (some b)).1.lastHeight = mustParseInt64 b.height ∧
    (Core3.onBlock engine c (some b)).1.lastHash = b.hash ∧
    (Core3.onBlock engine c (some b)).1.lastTime = b.time ∧
    (Core3.onBlock engine c (some b)).1.mgrState =
      (engine (mustParseInt64 b.height) (judgeDecide c.rule b.hash) c.mgrState).1 ∧
    (Core3.onBlock engine c (some b)).2 =
      (engine (mustParseInt64 b.height) (judgeDecide c.rule b.hash) c.mgrState).2 := by
  have hval : ¬ (b.hash = [] ∨ b.height = []) := by tauto
  have hpr : ¬ ((c.ring.push b).2 = false) := by
    rw [hadm]
    simp
  simp only [Core3.onBlock, hval, if_false, hpr]
  exact ⟨rfl, rfl, rfl, rfl, rfl, rfl⟩

theorem gap_increment_and_continue_witness :
    (¬ c8blk.hash = [] ∧ ¬ c8blk.height = [] ∧ (c8core.ring.push c8blk).2 = true) ∧
    ((Core3.onBlock c8engine c8core (some c8blk)).1.majorIncidents =
       c8core.majorIncidents +
         (if c8core.lastHeight > 0 ∧
             mustParseInt64 c8blk.height > c8core.lastHeight + 1 then 1 else 0) ∧
     (Core3.onBlock c8engine c8core (some c8blk)).1.lastHeight = mustParseInt64 c8blk.height ∧
     (Core3.onBlock c8engine c8core (some c8blk)).1.lastHash = c8blk.hash ∧
     (Core3.onBlock c8engine c8core (some c8blk)).1.lastTime = c8blk.time ∧
     (Core3.onBlock c8engine c8core (some c8blk)).1.mgrState =
       (c8engine (mustParseInt64 c8blk.height)
         (judgeDecide c8core.rule c8blk.hash) c8core.mgrState).1 ∧
     (Core3.onBlock c8engine c8core (some c8blk)).2 =
       (c8engine (mustParseInt64 c8blk.height)
         (judgeDecide c8core.rule c8blk.hash) c8core.mgrState).2) :=
  ⟨⟨by decide, by decide, by decide⟩,
   gap_increment_and_continue c8engine c8core c8blk (by decide) (by decide) (by decide)⟩

/-- C10: `Judge.Decide` with any rule other than `big` and `odd` —
including the empty string and arbitrary unrecognised strings — falls
through to the LUCKY classifier, and `NewJudge` of the empty rule
installs `lucky`; the classifier never fails on an unknown rule. -/
theorem unknown_rule_falls_back_lucky (rule : String) (hash : List Nat)
    (h1 : ¬ rule = "lucky") (h2 : ¬ rule = "big") (h3 : ¬ rule = "odd") :
    judgeDecide rule hash = judgeDecide "lucky" hash ∧ newJudgeRule "" = "lucky" := by
  refine ⟨?_, rfl⟩
  unfold judgeDecide
  rw [if_neg h2, if_neg h3,
      if_neg (show ¬ ("lucky" : String) = "big" by decide),
      if_neg (show ¬ ("lucky" : String) = "odd" by decide)]

theorem unknown_rule_falls_back_lucky_witness :
    (¬ ("" : String) = "lucky" ∧ ¬ ("" : String) = "big" ∧ ¬ ("" : String) = "odd") ∧
    (judgeDecide "" [51, 97] = judgeDecide "lucky" [51, 97] ∧ newJudgeRule "" = "lucky") :=
  ⟨⟨by decide, by decide, by decide⟩,
   unknown_rule_falls_back_lucky "" [51, 97] (by decide) (by decide) (by decide)⟩
